import Mathlib

/-!
# FinTrackable — verification of the transaction-ingestion core

Shallow embedding, translated from the Python sources, of:

* `src/models/transaction.py` — the `Transaction` model, its fingerprint
  (`generate_hash`) and its persistence record (`to_dict`);
* `src/views/upload.py` — the upload-time deduplication loop (legacy hash,
  known-hash set);
* `src/services/universal_parser.py` — money cleaning (`_parse_money`),
  date parsing and row conversion (`_df_to_transactions`);
* `src/services/csv_parser.py` — `parse_amount`, `parse_date`,
  `df_to_transactions`;
* `src/services/parsers/base_parser.py` — `BankParser.parse_amount`;
* `src/services/analytics.py` — income / expense / net aggregation;
* `src/models/category.py`, `src/services/categorization.py` — rule matching
  and first-match classification;
* `src/services/category_suggester.py` — counterparty clustering and
  category proposals;
* `src/utils/text_cleaner.py` — description boilerplate stripping.

Modelling conventions: Python `Decimal` is modelled by `PyDec`
(sign / natural coefficient / decimal scale, plus `NaN`/`Infinity`),
which preserves both the exact value and the printed representation;
Python `float` is modelled by correctly-rounded binary64 rounding on `ℚ`
(`pyFloat`); Python `set` objects are modelled as duplicate-free lists
(only membership and cardinality of those sets are ever used in the
statements proved here); `dict` objects are association lists in insertion
order, matching Python's guaranteed dict ordering; fallible operations
return `Option`/`Except` values instead of raising.
-/

set_option autoImplicit false

namespace FinTrackable

/-! ## Character and string helpers (ASCII—the code points the sources use) -/

/-- Lower-case one character, as Python `str.lower` does on ASCII input. -/
def lowerChar (c : Char) : Char :=
  if 'A' ≤ c ∧ c ≤ 'Z' then Char.ofNat (c.toNat + 32) else c

/-- Upper-case one character, as Python `str.upper` does on ASCII input. -/
def upperChar (c : Char) : Char :=
  if 'a' ≤ c ∧ c ≤ 'z' then Char.ofNat (c.toNat - 32) else c

/-- ASCII letter test (the cased characters that `str.title` reacts to in
the inputs exercised here). -/
def isAsciiAlpha (c : Char) : Bool :=
  ('a' ≤ c && c ≤ 'z') || ('A' ≤ c && c ≤ 'Z')

def lowerChars (l : List Char) : List Char := l.map lowerChar

/-- Python `str.title()` on ASCII text: a letter that does not follow a
letter is upper-cased, every other letter is lower-cased. -/
def titleChars : List Char → Bool → List Char
  | [], _ => []
  | c :: rest, prevAlpha =>
    let c' := if isAsciiAlpha c then (if prevAlpha then lowerChar c else upperChar c) else c
    c' :: titleChars rest (isAsciiAlpha c)

/-- Python whitespace test for `str.strip()`/`str.split()` (ASCII part). -/
def isPyWs (c : Char) : Bool :=
  c = ' ' || c = '\t' || c = '\n' || c = '\r' || c = '\x0b' || c = '\x0c'

/-- Python `str.strip()`: drop leading and trailing whitespace. -/
def stripChars (l : List Char) : List Char :=
  (((l.dropWhile isPyWs).reverse).dropWhile isPyWs).reverse

/-- Substring test, Python's `needle in haystack`. -/
def containsSub : List Char → List Char → Bool
  | hay, pat =>
    pat.isPrefixOf hay ||
      match hay with
      | [] => false
      | _ :: t => containsSub t pat

/-- Python `' '.join(s.split())`: collapse runs of whitespace, drop
leading/trailing whitespace. -/
def pySplitWs (l : List Char) : List (List Char) :=
  (l.splitOnP isPyWs).filter (· ≠ [])

def wsCollapse (l : List Char) : List Char :=
  String.intercalate " " ((pySplitWs l).map (fun w => String.mk w)) |>.data

/-- String-level wrappers used by the transaction-facing definitions. -/
def pyLower (s : String) : String := String.mk (lowerChars s.data)

def pyTitle (s : String) : String := String.mk (titleChars s.data false)

def pyStrip (s : String) : String := String.mk (stripChars s.data)

def pyContains (hay pat : String) : Bool := containsSub hay.data pat.data

/-! ## Python `date` (only what `str(date)` and `strptime` validation need) -/

/-- A calendar date as `datetime.date` holds it. -/
structure PyDate where
  year : ℕ
  month : ℕ
  day : ℕ
deriving DecidableEq, Repr

/-- Left-pad a numeral with zeros to the given width, as `str(date)` does. -/
def padNum (width n : ℕ) : String :=
  let s := toString n
  String.mk (List.replicate (width - s.length) '0') ++ s

/-- `str(d)` for a Python date: ISO `YYYY-MM-DD`. -/
def PyDate.iso (d : PyDate) : String :=
  padNum 4 d.year ++ "-" ++ padNum 2 d.month ++ "-" ++ padNum 2 d.day

def isLeap (y : ℕ) : Bool :=
  y % 4 = 0 && (y % 100 ≠ 0 || y % 400 = 0)

def daysInMonth (y m : ℕ) : ℕ :=
  if m = 2 then (if isLeap y then 29 else 28)
  else if m = 4 ∨ m = 6 ∨ m = 9 ∨ m = 11 then 30
  else 31

/-- `datetime(y, m, d)` construction succeeds only on real calendar dates. -/
def validDate (y m d : ℕ) : Bool :=
  1 ≤ m && m ≤ 12 && 1 ≤ d && d ≤ daysInMonth y m

/-! ## Python `Decimal`

`PyDec` keeps the information `str(Decimal)` exposes for the values this
program builds: sign, coefficient and number of fractional digits, plus the
special values `NaN` and `±Infinity` that the `Decimal` constructor also
accepts.  (Exponent notation never survives the numeric cleaning in these
parsers, so it is outside the model; the constructor grammar modelled below
covers sign / digits / one decimal point / `NaN` / `sNaN` / `Inf[inity]`,
which is every shape the settled claims evaluate.) -/

inductive PyDec where
  | finite (neg : Bool) (coeff : ℕ) (scale : ℕ)
  | nan
  | inf (neg : Bool)
deriving DecidableEq, Repr

/-- The zero produced by Python's `Decimal(0)`. -/
def decZero : PyDec := .finite false 0 0

/-- Exact value of a finite decimal (`NaN`/`Infinity` are given the junk
value 0; no settled statement evaluates them numerically). -/
def PyDec.toRat : PyDec → ℚ
  | .finite neg c s => (if neg then -1 else 1) * (c : ℚ) / (10 : ℚ) ^ s
  | .nan => 0
  | .inf _ => 0

/-- `Decimal(...) > 0`, as Python evaluates it on the values this program
compares (a NaN comparison would raise in Python; it is `false` here and
never reached by the settled statements). -/
def PyDec.isPos : PyDec → Bool
  | .finite neg c _ => decide (0 < c) && !neg
  | .nan => false
  | .inf neg => !neg

/-- `Decimal(...) < 0`. -/
def PyDec.isNeg : PyDec → Bool
  | .finite neg c _ => decide (0 < c) && neg
  | .nan => false
  | .inf neg => neg

/-- `str(Decimal)` for the plain (non-scientific) representations this
program produces: the coefficient printed with `scale` fractional digits. -/
def PyDec.toStr : PyDec → String
  | .finite neg c s =>
    let sign := if neg then "-" else ""
    if s = 0 then sign ++ toString c
    else
      let ds := toString c
      let ds := if ds.length ≤ s then String.mk (List.replicate (s + 1 - ds.length) '0') ++ ds else ds
      sign ++ String.mk (ds.data.take (ds.length - s)) ++ "." ++ String.mk (ds.data.drop (ds.length - s))
  | .nan => "NaN"
  | .inf neg => if neg then "-Infinity" else "Infinity"

/-- Digit accumulation for the `Decimal` constructor: consume digits and at
most one decimal point; require at least one digit. Returns coefficient and
scale. -/
def decDigits : List Char → Bool → Bool → ℕ → ℕ → Option (ℕ × ℕ)
  | [], seenDigit, _, c, s => if seenDigit then some (c, s) else none
  | ch :: rest, seenDigit, seenDot, c, s =>
    if ch.isDigit then
      decDigits rest true seenDot (10 * c + (ch.toNat - 48)) (if seenDot then s + 1 else s)
    else if ch = '.' && !seenDot then
      decDigits rest seenDigit true c s
    else
      none

/-- The special literals `Decimal` accepts (case-insensitive, after the
optional sign): `Inf`, `Infinity`, `NaN`/`sNaN` with an optional digit
payload. -/
def decSpecial (neg : Bool) (l : List Char) : Option PyDec :=
  if lowerChars l = ['i', 'n', 'f'] ∨ lowerChars l = ['i', 'n', 'f', 'i', 'n', 'i', 't', 'y'] then
    some (.inf neg)
  else if ['n', 'a', 'n'].isPrefixOf (lowerChars l) ∧ ((lowerChars l).drop 3).all Char.isDigit then
    some .nan
  else if ['s', 'n', 'a', 'n'].isPrefixOf (lowerChars l) ∧ ((lowerChars l).drop 4).all Char.isDigit then
    some .nan
  else none

/-- The optional leading sign of a `Decimal` literal. -/
def decBody (l : List Char) : List Char :=
  if l.head? = some '-' ∨ l.head? = some '+' then l.tail else l

def decNeg (l : List Char) : Bool :=
  l.head? = some '-'

/-- The Python `Decimal(str)` constructor on the grammar described above:
`some` is a successful construction, `none` is `InvalidOperation`. -/
def pyDecOfChars (l : List Char) : Option PyDec :=
  match decDigits (decBody l) false false 0 0 with
  | some (c, s) => some (.finite (decNeg l) c s)
  | none => decSpecial (decNeg l) (decBody l)

def pyDecOfString (s : String) : Option PyDec := pyDecOfChars s.data

/-- `abs` on a decimal, `Decimal.copy_abs`-style as `abs()` computes it. -/
def PyDec.abs : PyDec → PyDec
  | .finite _ c s => .finite false c s
  | .nan => .nan
  | .inf _ => .inf false

/-- Exact subtraction of two finite decimals, at the common scale — what
Python's `Decimal.__sub__` produces for the magnitudes this program handles
(no rounding at 28-digit context for these sizes). -/
def decSub : PyDec → PyDec → PyDec
  | .finite n1 c1 s1, .finite n2 c2 s2 =>
    let s := max s1 s2
    let v1 : ℤ := (if n1 then -1 else 1) * (c1 : ℤ) * (10 : ℤ) ^ (s - s1)
    let v2 : ℤ := (if n2 then -1 else 1) * (c2 : ℤ) * (10 : ℤ) ^ (s - s2)
    let d := v1 - v2
    .finite (d < 0) d.natAbs s
  | _, _ => .nan

/-! ## Cells

A spreadsheet/dataframe cell as the row loops see it: `absent` models a
missing column or a NaN cell (`pd.isna` true), `str` a textual value.
(Cells already holding native numbers or dates take the pass-through
branches of the sources and are not needed by any settled claim.) -/

inductive Cell where
  | absent
  | str (s : String)
deriving DecidableEq, Repr

def Cell.isAbsent : Cell → Bool
  | .absent => true
  | .str _ => false

/-! ## Money cleaning

Three amount parsers exist in the sources; each is embedded separately:
`UniversalParser._parse_money`'s inner `clean` (universal_parser.py),
`CSVParser.parse_amount` (csv_parser.py) and `BankParser.parse_amount`
(base_parser.py). -/

/-- `str.replace(c, '')` for a single character. -/
def removeChar (c : Char) (l : List Char) : List Char := l.filter (· ≠ c)

/-- `str.replace('EUR', '')`: drop every (left-to-right, non-overlapping)
occurrence of the three-letter sequence. -/
def removeEUR : List Char → List Char
  | 'E' :: 'U' :: 'R' :: t => removeEUR t
  | c :: t => c :: removeEUR t
  | [] => []

/-- `str.replace('USD', '')`. -/
def removeUSD : List Char → List Char
  | 'U' :: 'S' :: 'D' :: t => removeUSD t
  | c :: t => c :: removeUSD t
  | [] => []

/-- `str.rfind(c)`: index of the last occurrence. -/
def rfindIdx (c : Char) : List Char → Option ℕ
  | [] => none
  | x :: t =>
    match rfindIdx c t with
    | some i => some (i + 1)
    | none => if x = c then some 0 else none

def swapCommaDot (c : Char) : Char := if c = ',' then '.' else c

/-- The separator normalization of `UniversalParser._parse_money.clean`:
a lone `,` always becomes the decimal point; with both `,` and `.` the one
appearing last is kept as decimal point and the other is dropped. -/
def univSepNormalize (l : List Char) : List Char :=
  if ',' ∈ l ∧ '.' ∉ l then l.map swapCommaDot
  else if ',' ∈ l ∧ '.' ∈ l then
    if (rfindIdx ',' l).getD 0 > (rfindIdx '.' l).getD 0 then
      (l.filter (· ≠ '.')).map swapCommaDot
    else
      l.filter (· ≠ ',')
  else l

/-- `re.sub(r'[^\d.-]', '', s)`. -/
def moneyFilter (l : List Char) : List Char :=
  l.filter (fun c => c.isDigit || c = '.' || c = '-')

/-- Character pipeline of `clean` for string cells: strip `€`, `EUR`, `$`
and spaces, normalize separators, keep only digits, `.` and `-`. -/
def univMoneyChars (l : List Char) : List Char :=
  moneyFilter (univSepNormalize (removeChar ' ' (removeChar '$' (removeEUR (removeChar '€' l)))))

/-- `UniversalParser._parse_money.clean` on one cell. `.error` models the
uncaught `InvalidOperation` that `Decimal(s)` raises on a residue such as
`"."`; note the `Decimal(0)` fallback when nothing remains. -/
def univClean : Cell → Except Unit PyDec
  | .absent => .ok decZero
  | .str s =>
    if s = "" then .ok decZero
    else
      let l := univMoneyChars s.data
      if l = [] then .ok decZero
      else
        match pyDecOfChars l with
        | some d => .ok d
        | none => .error ()

/-- String-level wrapper used by the claim statements. -/
def universalCleanMoney (s : String) : Except Unit PyDec := univClean (.str s)

/-- Which of the money columns the validated AI mapping resolved
(`amount`, or a split `income`/`expense` pair). -/
structure UMapping where
  hasAmount : Bool
  hasIncome : Bool
  hasExpense : Bool
deriving DecidableEq, Repr

/-- A row of the dataframe after column mapping: each mapped field's cell
(`absent` both for an unmapped column and for a NaN cell, except the three
money columns where the mapping flags keep the distinction the code makes). -/
structure URow where
  date : Cell := .absent
  amount : Cell := .absent
  income : Cell := .absent
  expense : Cell := .absent
  name : Cell := .absent
  desc : Cell := .absent
deriving DecidableEq, Repr

/-- `UniversalParser._parse_money`: single amount column if mapped and
non-NaN; else `income - abs(expense)` when a split pair is mapped; else
`None`. -/
def univParseMoney (m : UMapping) (r : URow) : Except Unit (Option PyDec) :=
  if m.hasAmount && !r.amount.isAbsent then
    (univClean r.amount).map some
  else if m.hasIncome || m.hasExpense then do
    let inc ← if m.hasIncome then univClean r.income else .ok decZero
    let exp ← if m.hasExpense then univClean r.expense else .ok decZero
    .ok (some (decSub inc exp.abs))
  else .ok none

/-- The cleaning pipeline of `CSVParser.parse_amount`: strip, `,`→`.`,
then drop spaces, `€` and `EUR`. -/
def csvAmountChars (s : String) : List Char :=
  removeEUR (removeChar '€' (removeChar ' ' ((stripChars s.data).map swapCommaDot)))

/-- `CSVParser.parse_amount`: clean, then `Decimal(...)`; any constructor
failure is caught and becomes `None`. -/
def csvParseAmount : Cell → Option PyDec
  | .absent => none
  | .str s => pyDecOfChars (csvAmountChars s)

/-- The comma branch of `BankParser.parse_amount`: with both separators the
last one wins (as in the universal parser); with only commas, a single
comma followed by at most two characters is the decimal separator,
otherwise commas are thousands separators and are dropped. -/
def baseSepNormalize (l : List Char) : List Char :=
  if ',' ∈ l ∧ '.' ∈ l then
    if (rfindIdx ',' l).getD 0 > (rfindIdx '.' l).getD 0 then
      (l.filter (· ≠ '.')).map swapCommaDot
    else
      l.filter (· ≠ ',')
  else if ',' ∈ l then
    if (l.splitOn ',').length = 2 ∧ ((l.splitOn ',').getD 1 []).length ≤ 2 then
      l.map swapCommaDot
    else l.filter (· ≠ ',')
  else l

/-- The cleaning pipeline of `BankParser.parse_amount`: strip, drop the
currency markers, strip again, normalize separators, keep digits/`.`/`-`. -/
def baseAmountChars (s : String) : List Char :=
  moneyFilter (baseSepNormalize
    (stripChars (removeUSD (removeChar '$' (removeEUR (removeChar '€' (stripChars s.data)))))))

/-- `BankParser.parse_amount` on a string cell (base_parser.py): `None` for
an empty cell and `None` when nothing parseable remains after cleaning.
When `Decimal(...)` fails on a nonempty residue the `except` handler runs
`logger.debug(...)` — but `logger` is never imported or defined in
base_parser.py, so that handler itself raises `NameError` and the call
never returns `None`: the path is an uncaught exception, `.error` here. -/
def baseParseAmount : Cell → Except Unit (Option PyDec)
  | .absent => .ok none
  | .str s =>
    if s = "" then .ok none
    else if baseAmountChars s = [] then .ok none
    else
      match pyDecOfChars (baseAmountChars s) with
      | some d => .ok (some d)
      | none => .error ()

/-! ## Date parsing (`strptime` against the fixed format lists) -/

def expectChar (c : Char) : List Char → Option (List Char)
  | x :: t => if x = c then some t else none
  | [] => none

/-- A 1–2 digit field with the range `strptime` enforces for `%d`/`%m`
(two digits when available — a separator can never be mistaken for the
second digit — value in `[1, hi]`). -/
def parseNum2 (hi : ℕ) : List Char → Option (ℕ × List Char)
  | a :: b :: t =>
    if a.isDigit && b.isDigit then
      let v := (a.toNat - 48) * 10 + (b.toNat - 48)
      if 1 ≤ v ∧ v ≤ hi then some (v, t) else none
    else if a.isDigit && 1 ≤ a.toNat - 48 then
      some (a.toNat - 48, b :: t)
    else none
  | [a] => if a.isDigit && 1 ≤ a.toNat - 48 then some (a.toNat - 48, []) else none
  | [] => none

/-- `%Y`: exactly four digits. -/
def parseYear4 : List Char → Option (ℕ × List Char)
  | a :: b :: c :: d :: t =>
    if a.isDigit && b.isDigit && c.isDigit && d.isDigit then
      some ((a.toNat - 48) * 1000 + (b.toNat - 48) * 100 + (c.toNat - 48) * 10 + (d.toNat - 48), t)
    else none
  | _ => none

/-- `%b`: an English month abbreviation, case-insensitive. -/
def parseMonthAbbr (l : List Char) : Option (ℕ × List Char) :=
  let names := [("jan", 1), ("feb", 2), ("mar", 3), ("apr", 4), ("may", 5), ("jun", 6),
                ("jul", 7), ("aug", 8), ("sep", 9), ("oct", 10), ("nov", 11), ("dec", 12)]
  names.findSome? fun (n, m) =>
    if (n.data).isPrefixOf (lowerChars l) then some (m, l.drop 3) else none

def mkDate (y m d : ℕ) (rest : List Char) : Option PyDate :=
  if rest = [] ∧ validDate y m d then some ⟨y, m, d⟩ else none

/-- `%d SEP %m SEP %Y`. -/
def parseDMY (sep : Char) (l : List Char) : Option PyDate := do
  let (d, l) ← parseNum2 31 l
  let l ← expectChar sep l
  let (m, l) ← parseNum2 12 l
  let l ← expectChar sep l
  let (y, l) ← parseYear4 l
  mkDate y m d l

/-- `%Y SEP %m SEP %d`. -/
def parseYMD (sep : Char) (l : List Char) : Option PyDate := do
  let (y, l) ← parseYear4 l
  let l ← expectChar sep l
  let (m, l) ← parseNum2 12 l
  let l ← expectChar sep l
  let (d, l) ← parseNum2 31 l
  mkDate y m d l

/-- `%m SEP %d SEP %Y`. -/
def parseMDY (sep : Char) (l : List Char) : Option PyDate := do
  let (m, l) ← parseNum2 12 l
  let l ← expectChar sep l
  let (d, l) ← parseNum2 31 l
  let l ← expectChar sep l
  let (y, l) ← parseYear4 l
  mkDate y m d l

/-- `%d SEP %b SEP %Y`. -/
def parseDbY (sep : Char) (l : List Char) : Option PyDate := do
  let (d, l) ← parseNum2 31 l
  let l ← expectChar sep l
  let (m, l) ← parseMonthAbbr l
  let l ← expectChar sep l
  let (y, l) ← parseYear4 l
  mkDate y m d l

/-- `CSVParser.parse_date`: NaN → `None`; otherwise strip and try the
`DATE_FORMATS` of config/settings.py in order. -/
def csvParseDate : Cell → Option PyDate
  | .absent => none
  | .str s =>
    let l := stripChars s.data
    [parseDMY '/', parseYMD '-', parseDMY '-', parseMDY '/'].findSome? (· l)

/-- `UniversalParser._parse_date` on a string cell: strip and try its
longer format list in order. -/
def univParseDate : Cell → Option PyDate
  | .absent => none
  | .str s =>
    let l := stripChars s.data
    [parseDMY '/', parseYMD '-', parseDMY '-', parseMDY '/',
     parseDbY '-', parseDbY ' ', parseDMY '.'].findSome? (· l)

/-! ## The Transaction model and its fingerprint (models/transaction.py)

The MD5 digest itself is not re-implemented: every statement below is
proved for an arbitrary digest function `md5 : String → String`, which is
exactly what makes the string-level facts (determinism, legacy equality)
digest-independent. -/

structure Txn where
  datum : PyDate
  bedrag : PyDec
  naam : Option String := none
  omsch : Option String := none
  categorie : Option String := some "Overig"
  categorie_id : Option String := none
  is_confirmed : Bool := false
deriving DecidableEq, Repr

/-- The f-string fed to MD5 by `Transaction.generate_hash`:
`f"{self.datum}|{self.bedrag}|{self.naam_tegenpartij or ''}|{self.omschrijving or ''}"`
(`x or ''` yields `''` both for `None` and for the empty string, so it is
`Option.getD ""` here). -/
def hashInput (t : Txn) : String :=
  t.datum.iso ++ "|" ++ t.bedrag.toStr ++ "|" ++ t.naam.getD "" ++ "|" ++ t.omsch.getD ""

/-- `Transaction.generate_hash`, with the digest abstracted. -/
def generate_hash (md5 : String → String) (t : Txn) : String :=
  md5 (hashInput t)

/-- The "legacy" string built inline in `show_file_upload` (views/upload.py):
`f"{t.datum}|{t.bedrag}|{t.naam_tegenpartij or ''}|{t.omschrijving or ''}"`. -/
def legacyInput (t : Txn) : String :=
  t.datum.iso ++ "|" ++ t.bedrag.toStr ++ "|" ++ t.naam.getD "" ++ "|" ++ t.omsch.getD ""

/-- The legacy MD5 computed in the upload view. -/
def legacy_hash (md5 : String → String) (t : Txn) : String :=
  md5 (legacyInput t)

/-! ## Upload-time deduplication (views/upload.py, the filter loop) -/

/-- The dedup loop over the parsed candidates, in file order.  State is the
`existing_hashes` set (modelled as a duplicate-free list); the result is
`(unique_transactions, duplicate_count, final known set)`.  A candidate is
dropped when either its fingerprint or its legacy fingerprint is already
known; a kept candidate adds both fingerprints to the set. -/
def uploadDedup (md5 : String → String) : List Txn → List String → List Txn × ℕ × List String
  | [], known => ([], 0, known)
  | t :: rest, known =>
    if generate_hash md5 t ∈ known ∨ legacy_hash md5 t ∈ known then
      let r := uploadDedup md5 rest known
      (r.1, r.2.1 + 1, r.2.2)
    else
      let r := uploadDedup md5 rest
        ((known.insert (generate_hash md5 t)).insert (legacy_hash md5 t))
      (t :: r.1, r.2.1, r.2.2)

/-! ## The persistence record (`Transaction.to_dict`) -/

/-- Correctly-rounded conversion of an exact rational to IEEE-754 binary64,
expressed as the exact value of the resulting double: round to 53
significant bits (the inputs exercised are normal, non-tied doubles).
This is Python's `float(Decimal)` on the values this program stores. -/
def pyFloat (q : ℚ) : ℚ :=
  if q = 0 then 0
  else
    (round (q * (2 : ℚ) ^ ((52 : ℤ) - Int.log 2 |q|)) : ℤ) /
      (2 : ℚ) ^ ((52 : ℤ) - Int.log 2 |q|)

/-- The dictionary `Transaction.to_dict` hands to the persistence layer.
`bedrag` is `float(self.bedrag)` — its field here is the exact value of
that double, which is what makes the float conversion visible. -/
structure DbRecord where
  datum : String
  bedrag : ℚ
  naam : Option String
  omsch : Option String
  categorie_id : Option String
  is_confirmed : Bool
  hash : String
deriving Repr

/-- `Transaction.to_dict` (`self.hash or self.generate_hash()` always equals
`generate_hash`, since the attribute is only ever set by that method). -/
def to_dict (md5 : String → String) (t : Txn) : DbRecord :=
  { datum := t.datum.iso
    bedrag := pyFloat t.bedrag.toRat
    naam := t.naam
    omsch := t.omsch
    categorie_id := t.categorie_id
    is_confirmed := t.is_confirmed
    hash := generate_hash md5 t }

/-! ## Description boilerplate stripping (utils/text_cleaner.py) -/

/-- The anchored, case-insensitive prefix phrases of
`clean_transaction_description`, in source order (each regex is
`^<phrase>\s*-?\s*`). -/
def descPrefixPatterns : List String :=
  ["Betaling via bancontact", "Betaling via debit mastercard",
   "Betaling via Bancontact", "Betaling via Debit Mastercard",
   "Overschrijving naar", "Overschrijving van", "Domiciliëring",
   "Europese overschrijving", "SEPA domiciliëring", "SEPA overschrijving",
   "Terugbetaling", "Storting", "Opname"]

/-- Case-insensitive prefix removal. -/
def dropPrefixCI (phrase l : List Char) : Option (List Char) :=
  if lowerChars (l.take phrase.length) = lowerChars phrase then some (l.drop phrase.length)
  else none

/-- Consume the `\s*-?\s*` tail of each pattern. -/
def dropWsDash (l : List Char) : List Char :=
  let l := l.dropWhile isPyWs
  let l := match l with | '-' :: t => t | _ => l
  l.dropWhile isPyWs

def applyDescPattern (phrase : String) (l : List Char) : List Char :=
  match dropPrefixCI phrase.data l with
  | some rest => dropWsDash rest
  | none => l

/-- `clean_transaction_description`: strip, remove each boilerplate prefix
in sequence, collapse internal whitespace, strip again. -/
def clean_transaction_description (s : String) : String :=
  if s = "" then s
  else
    let cleaned := stripChars s.data
    let cleaned := descPrefixPatterns.foldl (fun acc p => applyDescPattern p acc) cleaned
    String.mk (stripChars (wsCollapse cleaned))

/-! ## Row conversion: `CSVParser.df_to_transactions` (csv_parser.py) -/

/-- A KBC-format row: the four `CSV_COLUMNS` cells. -/
structure CsvRow where
  datum : Cell := .absent
  bedrag : Cell := .absent
  naam : Cell := .absent
  omsch : Cell := .absent
deriving DecidableEq, Repr

inductive RowErr where
  | badDate
  | badAmount
deriving DecidableEq, Repr

/-- Text cells become stripped strings, NaN cells become `None`. -/
def cellText : Cell → Option String
  | .absent => none
  | .str s => some (pyStrip s)

/-- One row of the loop body: invalid date and invalid amount are the two
skip conditions, in that order. -/
def csvRowConv (r : CsvRow) : Except RowErr Txn :=
  match csvParseDate r.datum with
  | none => .error .badDate
  | some d =>
    match csvParseAmount r.bedrag with
    | none => .error .badAmount
    | some b =>
      .ok { datum := d, bedrag := b, naam := cellText r.naam, omsch := cellText r.omsch }

def csvDateWarn (i : ℕ) : String := "⚠️ Row " ++ toString (i + 1) ++ ": Invalid date format"

def csvAmountWarn (i : ℕ) : String := "⚠️ Row " ++ toString (i + 1) ++ ": Invalid amount format"

/-- The `df_to_transactions` loop: transactions and warnings accumulated in
row order (rows are indexed from 0, the dataframe's positional labels). -/
def csvDfGo : ℕ → List CsvRow → List Txn × List String
  | _, [] => ([], [])
  | i, r :: rest =>
    let (ts, ws) := csvDfGo (i + 1) rest
    match csvRowConv r with
    | .ok t => (t :: ts, ws)
    | .error .badDate => (ts, csvDateWarn i :: ws)
    | .error .badAmount => (ts, csvAmountWarn i :: ws)

def csvDfToTransactions (rows : List CsvRow) : List Txn × List String :=
  csvDfGo 0 rows

/-! ## Row conversion: `UniversalParser._df_to_transactions` -/

/-- One row of the universal loop: an unparseable date or a `None` amount
hits a bare `continue`; the `InvalidOperation` a digitless-but-nonempty
residue raises is swallowed by the row-level `except: continue`.  No
warning is recorded on any of these paths. -/
def univRowConv (m : UMapping) (r : URow) : Option Txn :=
  match univParseDate r.date with
  | none => none
  | some d =>
    match univParseMoney m r with
    | .error _ => none
    | .ok none => none
    | .ok (some b) =>
      let name := match r.name with | .absent => none | .str s => some s
      let desc := match r.desc with | .absent => none | .str s => some s
      let desc := desc.map fun s => if s ≠ "" then clean_transaction_description s else s
      some { datum := d, bedrag := b, naam := name, omsch := desc }

def univDfToTransactions (m : UMapping) : List URow → List Txn
  | [] => []
  | r :: rest =>
    match univRowConv m r with
    | some t => t :: univDfToTransactions m rest
    | none => univDfToTransactions m rest

/-! ## Aggregation (services/analytics.py)

Amounts are carried exactly (`ℚ`); the source computes these sums in
binary floating point, which this model idealizes — the identities proved
below are about the *definitions* of the three totals. -/

/-- A stored transaction row as the analytics dataframe sees it. -/
structure ARow where
  bedrag : ℚ
  categorie : Option String := none

/-- The category normalization of `Analytics.__init__`:
`fillna('Overig').astype(str).str.strip()`. -/
def normCat (r : ARow) : String := pyStrip (r.categorie.getD "Overig")

/-- `get_net_balance`: sum of all amounts, unconditionally. -/
def get_net_balance (rows : List ARow) : ℚ :=
  (rows.map (·.bedrag)).sum

/-- `get_total_income`: net sum of the rows in the `'Inkomen'` category. -/
def get_total_income (rows : List ARow) : ℚ :=
  ((rows.filter (fun r => normCat r = "Inkomen")).map (·.bedrag)).sum

/-- `get_total_expenses`: `Total Income - Net Balance`. -/
def get_total_expenses (rows : List ARow) : ℚ :=
  get_total_income rows - get_net_balance rows

/-! ## Categories and classification (models/category.py,
services/categorization.py) -/

/-- A rule dictionary: `field`, optional `contains` keywords, optional
sign `condition`. -/
structure CatRule where
  field : String
  contains : Option (List String) := none
  condition : Option String := none
deriving DecidableEq, Repr

/-- The field value a contains-rule reads (unknown fields read as `""`,
exactly as `Category.matches` initializes `field_value`). -/
def ruleFieldValue (t : Txn) (f : String) : String :=
  if f = "naam_tegenpartij" then t.naam.getD ""
  else if f = "omschrijving" then t.omsch.getD ""
  else ""

/-- One rule against one transaction.  `if rule.contains:` and
`if rule.condition:` are Python truthiness tests, so an empty keyword list
or empty condition string skips its block. -/
def ruleMatches (t : Txn) (r : CatRule) : Bool :=
  (match r.contains with
   | some kws =>
     !kws.isEmpty &&
       (let fv := pyLower (ruleFieldValue t r.field)
        kws.any fun k => pyContains fv (pyLower k))
   | none => false) ||
  (match r.condition with
   | some c =>
     c ≠ "" &&
       ((c = "positive" && t.bedrag.isPos) ||
        (c = "negative" && t.bedrag.isNeg))
   | none => false)

structure Category where
  name : String
  rules : List CatRule := []
  color : String := "#9ca3af"
deriving DecidableEq, Repr

/-- The rule loop of `Category.matches`: first matching rule returns
`True`, falling off the end returns `False` (as does the empty rule list). -/
def rulesMatchLoop (t : Txn) : List CatRule → Bool
  | [] => false
  | r :: rs => ruleMatches t r || rulesMatchLoop t rs

def Category.matches (c : Category) (t : Txn) : Bool :=
  rulesMatchLoop t c.rules

/-- `CategorizationEngine.categorize_transaction`: walk the merged category
list in order, return the first match's name, defaulting to `"Overig"`. -/
def categorize_transaction (cats : List Category) (t : Txn) : String :=
  match cats with
  | [] => "Overig"
  | c :: rest => if c.matches t then c.name else categorize_transaction rest t

/-! ## Counterparty clustering (services/category_suggester.py)

`CategorySuggester` without user categories (its `__init__` merge branch is
taken only when a category list is supplied).  Python `set`s become
duplicate-free lists in insertion order — only membership and cardinality
of those sets are stated below; `dict`s become association lists in
insertion order, which Python guarantees. -/

/-- The class-level `CATEGORY_KEYWORDS` table, in source order. -/
def CATEGORY_KEYWORDS : List (String × List String) :=
  [("Eten & Drinken",
    ["delhaize", "colruyt", "carrefour", "albert heijn", "aldi", "lidl",
     "restaurant", "cafe", "bar", "pizza", "sushi", "fritkot",
     "uber eats", "deliveroo", "takeaway", "bakker", "de brug"]),
   ("Wonen",
    ["huur", "verhuurder", "electrabel", "engie", "proximus", "telenet",
     "water", "gas", "elektriciteit", "internet", "wifi"]),
   ("Transport",
    ["nmbs", "de lijn", "stib", "mivb", "uber", "taxi", "shell",
     "total", "benzine", "parking", "villo", "cambio"]),
   ("Vrije Tijd",
    ["netflix", "spotify", "cinema", "kinepolis", "ugc", "steam",
     "playstation", "xbox", "concert", "festival", "museum", "theater"]),
   ("Sport & Gezondheid",
    ["basic-fit", "fitness", "gym", "sportcity", "apotheek",
     "pharmacy", "dokter", "tandarts", "ziekenhuis"]),
   ("Kleding",
    ["h&m", "zara", "c&a", "primark", "bershka", "mango",
     "nike", "adidas", "schoenen"]),
   ("Reizen",
    ["booking", "airbnb", "ryanair", "brussels airlines", "thalys",
     "eurostar", "hotel", "hostel", "trip"]),
   ("Investeren",
    ["saxo", "bolero", "degiro", "binance", "coinbase",
     "beleggen", "aandelen", "crypto"]),
   ("Inkomen", ["idefix", "salaris", "loon", "bonus", "teruggave"])]

def vagueTerms : List String :=
  ["", "-", "--", "---", "onbekend", "overschrijving", "betaling",
   "mededeling", "interne overschrijving"]

/-- First keyword of the table satisfying a predicate (category order, then
keyword order). -/
def firstKeyword (pred : String → Bool) : Option String :=
  CATEGORY_KEYWORDS.findSome? fun p =>
    p.2.findSome? fun kw => if pred kw then some kw else none

/-- `_enrich_transaction_name`: replace vague counterparty names via
keyword lookup / income fallback / description snippet / `"Onbekend"`, and
canonicalize recognizable non-vague names to the title-cased keyword. -/
def enrichTxn (t : Txn) : Txn :=
  let originalName := pyStrip (t.naam.getD "")
  let description := pyLower (t.omsch.getD "")
  let isVague := originalName = "" ∨ pyLower originalName ∈ vagueTerms
  if isVague then
    match firstKeyword (fun kw => pyContains description kw) with
    | some kw => { t with naam := some (pyTitle kw) }
    | none =>
      if t.bedrag.isPos then { t with naam := some "Inkomen / Teruggave" }
      else
        match t.omsch with
        | some o =>
          if o.length > 5 then
            let snippet := pyStrip (String.mk (o.data.take 30))
            let snippet := if o.length > 30 then snippet ++ "..." else snippet
            { t with naam := some snippet }
          else { t with naam := some "Onbekend" }
        | none => { t with naam := some "Onbekend" }
  else
    match firstKeyword (fun kw => pyContains (pyLower originalName) kw && kw.length > 3) with
    | some kw => { t with naam := some (pyTitle kw) }
    | none => { t with naam := some (pyTitle originalName) }

/-- Append an index/transaction pair to its counterparty group, preserving
dict insertion order (`defaultdict(list)`). -/
def addToGroups (key : String) (p : ℕ × Txn) :
    List (String × List (ℕ × Txn)) → List (String × List (ℕ × Txn))
  | [] => [(key, [p])]
  | (k, ps) :: rest =>
    if k = key then (k, ps ++ [p]) :: rest else (k, ps) :: addToGroups key p rest

/-- `_group_by_counterparty` over indexed transactions: a truthy
counterparty is normalized (`lower().strip()`); otherwise a truthy
description lands the row in the shared `"onbekend"` bucket; otherwise the
row joins no group at all. -/
def groupByCounterparty (txns : List (ℕ × Txn)) : List (String × List (ℕ × Txn)) :=
  txns.foldl
    (fun gs p =>
      match p.2.naam with
      | some n =>
        if n ≠ "" then addToGroups (pyStrip (pyLower n)) p gs
        else match p.2.omsch with
          | some o => if o ≠ "" then addToGroups "onbekend" p gs else gs
          | none => gs
      | none =>
        match p.2.omsch with
        | some o => if o ≠ "" then addToGroups "onbekend" p gs else gs
        | none => gs)
    []

/-- `_match_to_category`: an all-positive group is income; otherwise the
first table keyword found in the counterparty or in any member's
description decides, with a human-readable reason. -/
def matchToCategory (cp : String) (txns : List Txn) : Option (String × String) :=
  if txns.all (fun t => t.bedrag.isPos) then
    some ("Inkomen", "Positief bedrag")
  else
    CATEGORY_KEYWORDS.findSome? fun p =>
      p.2.findSome? fun kw =>
        if pyContains (pyLower cp) kw then
          some (p.1, "Match op '" ++ kw ++ "'")
        else
          txns.findSome? fun t =>
            match t.omsch with
            | some o =>
              if o ≠ "" && pyContains (pyLower o) kw then
                some (p.1, "Omschrijving bevat '" ++ kw ++ "'")
              else none
            | none => none

/-- `_get_color_for_category` (default: `COLORS[0]`). -/
def colorFor (cat : String) : String :=
  (([("Eten & Drinken", "#f59e0b"), ("Wonen", "#6b7280"), ("Transport", "#06b6d4"),
     ("Vrije Tijd", "#8b5cf6"), ("Sport & Gezondheid", "#ef4444"), ("Kleding", "#ec4899"),
     ("Reizen", "#14b8a6"), ("Investeren", "#10b981"), ("Inkomen", "#3b82f6"),
     ("Overig", "#9ca3af")].find? (·.1 = cat)).map (·.2)).getD "#10b981"

/-- `_get_description` (default: `""`). -/
def descriptionFor (cat : String) : String :=
  (([("Eten & Drinken", "Supermarkten, restaurants en voedselgerelateerde uitgaven"),
     ("Wonen", "Huur, utilities, internet en huishoudelijke kosten"),
     ("Transport", "Openbaar vervoer, taxi's, brandstof en parkeren"),
     ("Vrije Tijd", "Entertainment, streaming diensten en hobby's"),
     ("Sport & Gezondheid", "Fitness, sport en medische kosten"),
     ("Kleding", "Kledingwinkels en schoenen"),
     ("Reizen", "Vluchten, hotels en vakantiegerelateerde kosten"),
     ("Investeren", "Beleggingen, sparen en crypto"),
     ("Inkomen", "Salarissen en andere inkomsten"),
     ("Overig", "Niet gecategoriseerde transacties")].find? (·.1 = cat)).map (·.2)).getD ""

/-- The per-category evidence record accumulated in `suggestions`.
`avg_amount` holds the running Decimal sum until the finalize step divides
it by the count (division modelled exactly on `ℚ`). -/
structure Evidence where
  name : String
  counterparties : List String := []
  transaction_count : ℕ := 0
  avg_amount : ℚ := 0
  color : String := ""
  description : String := ""
  reasons : List String := []
  keywords : List String := []
deriving DecidableEq, Repr

/-- Python `set.add` on the duplicate-free-list model. -/
def setAdd (l : List String) (x : String) : List String :=
  if x ∈ l then l else l ++ [x]

def initEv (cat : String) : Evidence :=
  { name := cat
    color := colorFor cat
    description := descriptionFor cat
    keywords := ((CATEGORY_KEYWORDS.find? (·.1 = cat)).map (·.2)).getD [] }

/-- Fold one matched counterparty group into its category's evidence. -/
def addGroupToEv (cp : String) (gtxns : List Txn) (reason : String) (ev : Evidence) : Evidence :=
  { ev with
    counterparties := setAdd ev.counterparties (pyTitle cp)
    transaction_count := ev.transaction_count + gtxns.length
    avg_amount := ev.avg_amount + (gtxns.map (·.bedrag.toRat)).sum
    reasons := if reason ≠ "" then setAdd ev.reasons reason else ev.reasons }

/-- Create-if-missing then update, preserving dict insertion order. -/
def updateEntry (cat : String) (f : Evidence → Evidence) :
    List (String × Evidence) → List (String × Evidence)
  | [] => [(cat, f (initEv cat))]
  | (k, e) :: rest =>
    if k = cat then (k, f e) :: rest else (k, e) :: updateEntry cat f rest

/-- `txn_to_cat[id(t)] = cat` on the index-keyed model. -/
def setCat (i : ℕ) (c : String) : List (ℕ × String) → List (ℕ × String)
  | [] => [(i, c)]
  | (j, c') :: rest => if j = i then (j, c) :: rest else (j, c') :: setCat i c rest

def setCats (idxs : List ℕ) (c : String) (m : List (ℕ × String)) : List (ℕ × String) :=
  idxs.foldl (fun m' i => setCat i c m') m

/-- One step of the main analysis loop: a matched group is folded into its
category's evidence and its members are labeled; an unmatched group's
members are labeled `"Overig"`. -/
def aggStep (acc : List (String × Evidence) × List (ℕ × String))
    (g : String × List (ℕ × Txn)) :
    List (String × Evidence) × List (ℕ × String) :=
  match matchToCategory g.1 (g.2.map (·.2)) with
  | some (cat, reason) =>
    (updateEntry cat (addGroupToEv g.1 (g.2.map (·.2)) reason) acc.1,
     setCats (g.2.map (·.1)) cat acc.2)
  | none => (acc.1, setCats (g.2.map (·.1)) "Overig" acc.2)

/-- The main analysis loop over the counterparty groups. -/
def aggregateGroups (groups : List (String × List (ℕ × Txn))) :
    List (String × Evidence) × List (ℕ × String) :=
  groups.foldl aggStep ([], [])

/-- The finalize step: turn the running sum into the average. -/
def finalizeEv (e : Evidence) : Evidence :=
  if e.transaction_count > 0 then
    { e with avg_amount := e.avg_amount / e.transaction_count }
  else e

/-- The synthetic `'Inkomen'` entry added when positive-amount transactions
exist and no group already proposed the category. -/
def incomeFallback (indexed : List (ℕ × Txn)) (sugs : List (String × Evidence))
    (m : List (ℕ × String)) : List (String × Evidence) × List (ℕ × String) :=
  let incomePairs := indexed.filter fun p => p.2.bedrag.isPos
  if incomePairs ≠ [] ∧ (sugs.find? (·.1 = "Inkomen")).isNone then
    (sugs ++
      [("Inkomen",
        { name := "Inkomen"
          counterparties :=
            (incomePairs.filterMap fun p =>
              match p.2.naam with
              | some n => if n ≠ "" then some (pyTitle n) else none
              | none => none).foldl setAdd []
          transaction_count := incomePairs.length
          avg_amount := (incomePairs.map (·.2.bedrag.toRat)).sum / incomePairs.length
          color := "#3b82f6"
          description := "Salarissen en andere inkomsten"
          reasons := ["Positieve bedragen (inkomst)"]
          keywords := [] })],
     setCats (incomePairs.map (·.1)) "Inkomen" m)
  else (sugs, m)

/-- The unconditional `'Overig'` catch-all entry. -/
def overigFallback (sugs : List (String × Evidence)) : List (String × Evidence) :=
  if (sugs.find? (·.1 = "Overig")).isNone then
    sugs ++
      [("Overig",
        { name := "Overig", color := "#9ca3af",
          description := "Niet gecategoriseerde transacties",
          reasons := ["Standaard drempelwaarde"] })]
  else sugs

/-- `CategorySuggester.analyze_and_suggest`: enrich names, group by
counterparty, match groups to categories, aggregate evidence, finalize
averages, add the income and `'Overig'` fallbacks, and write the resolved
label back onto every transaction. -/
def analyze_and_suggest (txns : List Txn) : List (String × Evidence) × List Txn :=
  let indexed := (txns.map enrichTxn).enum
  let agg := aggregateGroups (groupByCounterparty indexed)
  let fb := incomeFallback indexed (agg.1.map fun p => (p.1, finalizeEv p.2)) agg.2
  (overigFallback fb.1,
   indexed.map fun p => { p.2 with categorie := some ((fb.2.lookup p.1).getD "Overig") })

/-! ## Shared helper lemmas -/

/-- The legacy f-string in `show_file_upload` is character-for-character the
f-string inside `Transaction.generate_hash`. -/
theorem legacyInput_eq_hashInput (t : Txn) : legacyInput t = hashInput t := rfl

theorem legacy_hash_eq (md5 : String → String) (t : Txn) :
    legacy_hash md5 t = generate_hash md5 t := rfl

/-- `rulesMatchLoop` is the disjunction of the individual rules. -/
theorem rulesMatchLoop_eq_any (t : Txn) (rs : List CatRule) :
    rulesMatchLoop t rs = rs.any (ruleMatches t) := by
  induction rs with
  | nil => rfl
  | cons r rs ih => simp [rulesMatchLoop, List.any_cons, ih]

/-! ## C1 — fingerprint determinism -/

/-- C1: the fingerprint is a pure function of `(date, amount, counterparty,
description)` — two transactions (however independently constructed) whose
four key fields agree produce the same digest input and hence the same hash
string, for every digest function; and the digest input substitutes the
empty string for an absent counterparty or description.  No other state
enters the computation. -/
theorem C1_fingerprint_deterministic (md5 : String → String) (t₁ t₂ : Txn)
    (hd : t₁.datum = t₂.datum) (hb : t₁.bedrag = t₂.bedrag)
    (hn : t₁.naam = t₂.naam) (ho : t₁.omsch = t₂.omsch) :
    generate_hash md5 t₁ = generate_hash md5 t₂ ∧
      generate_hash md5 t₁ =
        md5 (t₁.datum.iso ++ "|" ++ t₁.bedrag.toStr ++ "|" ++
          t₁.naam.getD "" ++ "|" ++ t₁.omsch.getD "") := by
  refine ⟨?_, rfl⟩
  unfold generate_hash hashInput
  rw [hd, hb, hn, ho]

/-- Witness for C1: two distinct `Transaction` instances that agree on the
four key fields (they differ in the mutable `categorie` field) hash
identically. -/
theorem C1_fingerprint_deterministic_witness :
    generate_hash id
        { datum := ⟨2024, 3, 1⟩, bedrag := .finite true 4550 2,
          naam := some "Delhaize Gent", omsch := some "Aankoop" } =
      generate_hash id
        { datum := ⟨2024, 3, 1⟩, bedrag := .finite true 4550 2,
          naam := some "Delhaize Gent", omsch := some "Aankoop",
          categorie := none } :=
  (C1_fingerprint_deterministic id _ _ rfl rfl rfl rfl).1

/-! ## C10 — the "legacy" fingerprint coincides with the current one -/

/-- C10: the legacy `date|amount|counterparty|description` hash computed
inline by the upload view is extensionally equal to
`Transaction.generate_hash` (the two f-strings are identical), so testing
`hash ∈ known ∨ legacy ∈ known` is equivalent to testing the current
fingerprint alone. -/
theorem C10_legacy_fingerprint_equivalent (md5 : String → String) (t : Txn)
    (known : List String) :
    legacy_hash md5 t = generate_hash md5 t ∧
      ((generate_hash md5 t ∈ known ∨ legacy_hash md5 t ∈ known) ↔
        generate_hash md5 t ∈ known) := by
  refine ⟨legacy_hash_eq md5 t, ?_⟩
  rw [legacy_hash_eq md5 t]
  exact or_self_iff

/-! ## C5 — aggregation identities (amounts idealized as exact rationals) -/

/-- A collection with a refund (+20) inside an expense category: income
100, net 70, so `totalExpenses = 30`, while the raw negative-amount total
is 50. -/
def expensesDemoRows : List ARow :=
  [⟨100, some "Inkomen"⟩, ⟨-50, some "Eten & Drinken"⟩, ⟨20, some "Eten & Drinken"⟩]

/-- C5: `netBalance` is the unconditional sum of all amounts,
`totalExpenses` is defined as `totalIncome - netBalance`, hence
`netBalance = totalIncome - totalExpenses` exactly; and `totalExpenses` is
not the raw (absolute) sum of the negative amounts, as the demo collection
shows. -/
theorem C5_aggregation_identity (rows : List ARow) :
    get_net_balance rows = (rows.map (·.bedrag)).sum ∧
      get_total_expenses rows = get_total_income rows - get_net_balance rows ∧
      get_net_balance rows = get_total_income rows - get_total_expenses rows ∧
      get_total_expenses expensesDemoRows ≠
        -(((expensesDemoRows.filter fun r => r.bedrag < 0).map (·.bedrag)).sum) := by
  refine ⟨rfl, rfl, ?_, ?_⟩
  · unfold get_total_expenses
    ring
  · have h1 : (expensesDemoRows.filter fun r => normCat r = "Inkomen") =
        [⟨100, some "Inkomen"⟩] := rfl
    have h2 : (expensesDemoRows.filter fun r => r.bedrag < 0) =
        [⟨-50, some "Eten & Drinken"⟩] := rfl
    unfold get_total_expenses get_total_income get_net_balance
    rw [h1, h2]
    norm_num [expensesDemoRows]

/-! ## C6 — first-match classification with `"Overig"` fallback -/

/-- C6: `categorize_transaction` returns the name of the first category of
the engine's (merged) list whose rules match, and `"Overig"` when none
match; a category matches exactly when at least one of its rules matches
(logical OR).  Both sides are pure functions, so repeated calls on the same
inputs agree by construction. -/
theorem C6_first_match_wins (cats : List Category) (t : Txn) (c : Category) :
    categorize_transaction cats t =
        (((cats.find? fun c' => c'.matches t).map (·.name)).getD "Overig") ∧
      c.matches t = c.rules.any (ruleMatches t) := by
  refine ⟨?_, rulesMatchLoop_eq_any t c.rules⟩
  induction cats with
  | nil => rfl
  | cons c' rest ih =>
    by_cases h : c'.matches t
    · simp [categorize_transaction, List.find?_cons, h]
    · simpa [categorize_transaction, List.find?_cons, h] using ih

/-! ## C2 — dedup keeps the first occurrence, in file order -/

/-- The candidate at absolute position `p.1` of the batch `l` survives the
dedup exactly when its fingerprint is not already known and no earlier
candidate (a strict prefix of the batch) shares its fingerprint. -/
def keepAt (md5 : String → String) (known : List String) (l : List Txn) (p : ℕ × Txn) : Prop :=
  generate_hash md5 p.2 ∉ known ∧
    ∀ q ∈ l.take p.1, generate_hash md5 q ≠ generate_hash md5 p.2

instance keepAtDecidable (md5 : String → String) (known : List String) (l : List Txn)
    (p : ℕ × Txn) : Decidable (keepAt md5 known l p) := by
  unfold keepAt; infer_instance

theorem keepAt_cons_of_mem (md5 : String → String) (known : List String) (t : Txn)
    (rest : List Txn) (i : ℕ) (q : Txn) (hm : generate_hash md5 t ∈ known) :
    keepAt md5 known (t :: rest) (i + 1, q) ↔ keepAt md5 known rest (i, q) := by
  simp only [keepAt, List.take_succ_cons, List.forall_mem_cons]
  constructor
  · rintro ⟨h1, _, h2⟩
    exact ⟨h1, h2⟩
  · rintro ⟨h1, h2⟩
    exact ⟨h1, fun heq => h1 (heq ▸ hm), h2⟩

theorem keepAt_cons_of_not_mem (md5 : String → String) (known : List String) (t : Txn)
    (rest : List Txn) (i : ℕ) (q : Txn) :
    keepAt md5 known (t :: rest) (i + 1, q) ↔
      keepAt md5 (known.insert (generate_hash md5 t)) rest (i, q) := by
  simp only [keepAt, List.take_succ_cons, List.forall_mem_cons, List.mem_insert_iff]
  constructor
  · rintro ⟨h1, hne, h2⟩
    exact ⟨fun h => h.elim (fun e => hne e.symm) h1, h2⟩
  · rintro ⟨h1, h2⟩
    exact ⟨fun h => h1 (Or.inr h), fun heq => h1 (Or.inl heq.symm), h2⟩

theorem uploadDedup_keep_aux (md5 : String → String) :
    ∀ (l : List Txn) (known : List String) (n : ℕ),
      (uploadDedup md5 l known).1 =
        ((l.enumFrom n).filter fun p =>
          decide (keepAt md5 known l (p.1 - n, p.2))).map Prod.snd := by
  intro l
  induction l with
  | nil => intro known n; rfl
  | cons t rest ih =>
    intro known n
    have hshift : ∀ (known' : List String) (p : ℕ × Txn), p ∈ rest.enumFrom (n + 1) →
        p.1 - n = (p.1 - (n + 1)) + 1 := by
      intro _ p hp
      have hle : n + 1 ≤ p.1 := by
        have := (List.mk_mem_enumFrom_iff_le_and_getElem?_sub (x := p.2)).mp (by
          simpa using hp)
        exact this.1
      omega
    rw [List.enumFrom_cons]
    by_cases hm : generate_hash md5 t ∈ known
    · have hcond : generate_hash md5 t ∈ known ∨ legacy_hash md5 t ∈ known := Or.inl hm
      rw [List.filter_cons_of_neg (by simp [keepAt, hm])]
      simp only [uploadDedup, if_pos hcond]
      rw [ih known (n + 1)]
      congr 1
      refine List.filter_congr ?_
      intro p hp
      rw [hshift known p hp]
      exact decide_eq_decide.mpr (keepAt_cons_of_mem md5 known t rest _ p.2 hm).symm
    · have hcond : ¬(generate_hash md5 t ∈ known ∨ legacy_hash md5 t ∈ known) := by
        rw [legacy_hash_eq]
        simpa using hm
      rw [List.filter_cons_of_pos (by simp [keepAt, hm, Nat.sub_self])]
      simp only [uploadDedup, if_neg hcond]
      rw [legacy_hash_eq md5 t,
        List.insert_of_mem (List.mem_insert_self (generate_hash md5 t) known)]
      rw [ih (known.insert (generate_hash md5 t)) (n + 1), List.map_cons]
      congr 2
      refine List.filter_congr ?_
      intro p hp
      rw [hshift known p hp]
      exact decide_eq_decide.mpr (keepAt_cons_of_not_mem md5 known t rest _ p.2).symm

theorem uploadDedup_count (md5 : String → String) :
    ∀ (l : List Txn) (known : List String),
      (uploadDedup md5 l known).2.1 + (uploadDedup md5 l known).1.length = l.length := by
  intro l
  induction l with
  | nil => intro known; rfl
  | cons t rest ih =>
    intro known
    by_cases hc : generate_hash md5 t ∈ known ∨ legacy_hash md5 t ∈ known
    · simp only [uploadDedup, if_pos hc]
      have := ih known
      simp only [List.length_cons]
      omega
    · simp only [uploadDedup, if_neg hc]
      have := ih ((known.insert (generate_hash md5 t)).insert (legacy_hash md5 t))
      simp only [List.length_cons]
      omega

theorem uploadDedup_known_mono (md5 : String → String) :
    ∀ (l : List Txn) (known : List String), known ⊆ (uploadDedup md5 l known).2.2 := by
  intro l
  induction l with
  | nil => intro known; exact fun a h => h
  | cons t rest ih =>
    intro known
    by_cases hc : generate_hash md5 t ∈ known ∨ legacy_hash md5 t ∈ known
    · simp only [uploadDedup, if_pos hc]
      exact ih known
    · simp only [uploadDedup, if_neg hc]
      intro a ha
      exact ih _ (List.mem_insert_of_mem (List.mem_insert_of_mem ha))

theorem uploadDedup_kept_hashes (md5 : String → String) :
    ∀ (l : List Txn) (known : List String) (t : Txn), t ∈ (uploadDedup md5 l known).1 →
      generate_hash md5 t ∈ (uploadDedup md5 l known).2.2 := by
  intro l
  induction l with
  | nil => intro known t h; cases h
  | cons t' rest ih =>
    intro known t ht
    by_cases hc : generate_hash md5 t' ∈ known ∨ legacy_hash md5 t' ∈ known
    · simp only [uploadDedup, if_pos hc] at ht ⊢
      exact ih known t ht
    · simp only [uploadDedup, if_neg hc] at ht ⊢
      rcases List.mem_cons.mp ht with h | h
      · subst h
        refine uploadDedup_known_mono md5 rest _ ?_
        exact List.mem_insert_iff.mpr (Or.inr (List.mem_insert_self _ _))
      · exact ih _ t h

/-- C2: the upload dedup processes candidates in file order and never
raises (it is a total function into `(kept, duplicate_count, known)`).
A candidate is kept exactly when neither of its fingerprints is already in
the known set and no earlier candidate of the same batch shares its
fingerprint — so the first occurrence of a duplicate wins and every later
occurrence is dropped; every dropped candidate is counted; and both
fingerprints of every kept candidate are in the final known set (the
legacy fingerprint coincides with the current one, so the membership tests
coincide as well). -/
theorem C2_dedup_first_occurrence_wins (md5 : String → String) (known : List String)
    (l : List Txn) :
    (uploadDedup md5 l known).1 =
        (l.enum.filter fun p => decide (keepAt md5 known l p)).map Prod.snd ∧
      (uploadDedup md5 l known).2.1 + (uploadDedup md5 l known).1.length = l.length ∧
      ∀ t ∈ (uploadDedup md5 l known).1,
        generate_hash md5 t ∈ (uploadDedup md5 l known).2.2 ∧
          legacy_hash md5 t ∈ (uploadDedup md5 l known).2.2 := by
  refine ⟨?_, uploadDedup_count md5 l known, ?_⟩
  · have h := uploadDedup_keep_aux md5 l known 0
    rw [h]
    rfl
  · intro t ht
    have h := uploadDedup_kept_hashes md5 l known t ht
    exact ⟨h, by rw [legacy_hash_eq]; exact h⟩

/-- Witness for C2 at a concrete batch: two equal-fingerprint candidates
(the same purchase parsed twice) and one fresh candidate.  The first
occurrence and the fresh row are kept in file order, the repeat is dropped
and counted, and the kept rows' fingerprints are all known afterwards. -/
theorem C2_dedup_first_occurrence_wins_witness :
    (uploadDedup id
        [{ datum := ⟨2024, 3, 2⟩, bedrag := .finite true 4550 2, naam := some "Delhaize Gent" },
         { datum := ⟨2024, 3, 2⟩, bedrag := .finite true 4550 2, naam := some "Delhaize Gent" },
         { datum := ⟨2024, 3, 3⟩, bedrag := .finite false 10000 2, naam := some "Salaris BV" }]
        []).1 =
      [{ datum := ⟨2024, 3, 2⟩, bedrag := .finite true 4550 2, naam := some "Delhaize Gent" },
       { datum := ⟨2024, 3, 3⟩, bedrag := .finite false 10000 2, naam := some "Salaris BV" }] := by
  have h := (C2_dedup_first_occurrence_wins id []
    [{ datum := ⟨2024, 3, 2⟩, bedrag := .finite true 4550 2, naam := some "Delhaize Gent" },
     { datum := ⟨2024, 3, 2⟩, bedrag := .finite true 4550 2, naam := some "Delhaize Gent" },
     { datum := ⟨2024, 3, 3⟩, bedrag := .finite false 10000 2, naam := some "Salaris BV" }]).1
  rw [h]
  rfl

/-! ## C4 — amount separator semantics -/

/-- C4 counterexample: the claim says a lone comma followed by three digits
is a thousands separator, so `"1,234"` should parse to 1234.  The universal
parser instead always turns a lone comma into the decimal point:
`Decimal("1.234")`, value 1234/1000 ≠ 1234. -/
theorem C4_comma_only_counterexample :
    universalCleanMoney "1,234" = .ok (.finite false 1234 3) ∧
      (PyDec.finite false 1234 3).toRat = (1234 : ℚ) / 1000 ∧
      (PyDec.finite false 1234 3).toRat ≠ (1234 : ℚ) :=
  ⟨rfl, by norm_num [PyDec.toRat], by norm_num [PyDec.toRat]⟩

/-- C4 (amended): when both `,` and `.` occur, the separator appearing last
is the decimal point and the other is stripped — in `_parse_money` and in
`BankParser.parse_amount` alike.  When only `,` occurs, `_parse_money`
treats it as the decimal separator *unconditionally* (no 1–2 digit
look-ahead), while `BankParser.parse_amount` treats a single comma followed
by at most two characters as decimal and strips commas otherwise.  The
spec's worked examples all hold:
`parse("1.234,56") = parse("1234.56") = Decimal("1234.56")`,
`parse("-45,00") = Decimal("-45.00")`, `parse("€ 12,50") = Decimal("12.50")`,
and `_parse_money("1,234") = Decimal("1.234")`. -/
theorem C4_separator_semantics :
    (∀ l : List Char, ',' ∈ l → '.' ∈ l →
        (rfindIdx ',' l).getD 0 > (rfindIdx '.' l).getD 0 →
        univSepNormalize l = (l.filter (· ≠ '.')).map swapCommaDot) ∧
    (∀ l : List Char, ',' ∈ l → '.' ∈ l →
        ¬(rfindIdx ',' l).getD 0 > (rfindIdx '.' l).getD 0 →
        univSepNormalize l = l.filter (· ≠ ',')) ∧
    (∀ l : List Char, ',' ∈ l → '.' ∉ l →
        univSepNormalize l = l.map swapCommaDot) ∧
    (∀ l : List Char, ',' ∈ l → '.' ∉ l →
        ((l.splitOn ',').length = 2 ∧ ((l.splitOn ',').getD 1 []).length ≤ 2 →
          baseSepNormalize l = l.map swapCommaDot) ∧
        (¬((l.splitOn ',').length = 2 ∧ ((l.splitOn ',').getD 1 []).length ≤ 2) →
          baseSepNormalize l = l.filter (· ≠ ','))) ∧
    universalCleanMoney "1.234,56" = .ok (.finite false 123456 2) ∧
    universalCleanMoney "1234.56" = .ok (.finite false 123456 2) ∧
    universalCleanMoney "-45,00" = .ok (.finite true 4500 2) ∧
    universalCleanMoney "€ 12,50" = .ok (.finite false 1250 2) ∧
    universalCleanMoney "1,234" = .ok (.finite false 1234 3) ∧
    baseParseAmount (.str "1,234") = .ok (some (.finite false 1234 0)) := by
  refine ⟨?_, ?_, ?_, ?_, rfl, rfl, rfl, rfl, rfl, rfl⟩
  · intro l h1 h2 h3
    unfold univSepNormalize
    rw [if_neg (fun h => h.2 h2), if_pos ⟨h1, h2⟩, if_pos h3]
  · intro l h1 h2 h3
    unfold univSepNormalize
    rw [if_neg (fun h => h.2 h2), if_pos ⟨h1, h2⟩, if_neg h3]
  · intro l h1 h2
    unfold univSepNormalize
    rw [if_pos ⟨h1, h2⟩]
  · intro l h1 h2
    constructor
    · intro hc
      unfold baseSepNormalize
      rw [if_neg (fun h => h2 h.2), if_pos h1, if_pos hc]
    · intro hc
      unfold baseSepNormalize
      rw [if_neg (fun h => h2 h.2), if_pos h1, if_neg hc]

/-- Witness for C4 (amended), at `"1,234"`: the lone comma becomes the
decimal point. -/
theorem C4_separator_semantics_witness :
    univSepNormalize "1,234".data = "1,234".data.map swapCommaDot :=
  C4_separator_semantics.2.2.1 "1,234".data (by decide) (by decide)

/-! ## C3 — behaviour on digit-free ("unparseable") amount strings -/

theorem mem_removeEUR {c : Char} : ∀ {l : List Char}, c ∈ removeEUR l → c ∈ l := by
  intro l
  induction l using removeEUR.induct with
  | case1 t ih =>
    intro h
    simp only [removeEUR] at h
    exact List.mem_cons_of_mem _ (List.mem_cons_of_mem _ (List.mem_cons_of_mem _ (ih h)))
  | case2 ch t hne ih =>
    intro h
    simp only [removeEUR] at h
    rcases List.mem_cons.mp h with h1 | h1
    · exact h1 ▸ List.mem_cons_self _ _
    · exact List.mem_cons_of_mem _ (ih h1)
  | case3 =>
    intro h
    exact h

theorem mem_removeUSD {c : Char} : ∀ {l : List Char}, c ∈ removeUSD l → c ∈ l := by
  intro l
  induction l using removeUSD.induct with
  | case1 t ih =>
    intro h
    simp only [removeUSD] at h
    exact List.mem_cons_of_mem _ (List.mem_cons_of_mem _ (List.mem_cons_of_mem _ (ih h)))
  | case2 ch t hne ih =>
    intro h
    simp only [removeUSD] at h
    rcases List.mem_cons.mp h with h1 | h1
    · exact h1 ▸ List.mem_cons_self _ _
    · exact List.mem_cons_of_mem _ (ih h1)
  | case3 =>
    intro h
    exact h

theorem mem_removeChar {a c : Char} {l : List Char} (h : c ∈ removeChar a l) : c ∈ l :=
  (List.mem_filter.mp h).1

theorem mem_stripChars {c : Char} {l : List Char} (h : c ∈ stripChars l) : c ∈ l := by
  unfold stripChars at h
  rw [List.mem_reverse] at h
  have h1 := (List.dropWhile_sublist isPyWs).mem h
  rw [List.mem_reverse] at h1
  exact (List.dropWhile_sublist isPyWs).mem h1

/-- `swapCommaDot` maps non-digits to non-digits. -/
theorem swapCommaDot_no_digit {c : Char} (h : c.isDigit = false) :
    (swapCommaDot c).isDigit = false := by
  unfold swapCommaDot
  split
  · rfl
  · exact h

theorem noDigit_univSepNormalize {l : List Char} (h : ∀ c ∈ l, c.isDigit = false) :
    ∀ c ∈ univSepNormalize l, c.isDigit = false := by
  intro c hc
  unfold univSepNormalize at hc
  split at hc
  · rcases List.mem_map.mp hc with ⟨c', hc', rfl⟩
    exact swapCommaDot_no_digit (h c' hc')
  · split at hc
    · split at hc
      · rcases List.mem_map.mp hc with ⟨c', hc', rfl⟩
        exact swapCommaDot_no_digit (h c' ((List.mem_filter.mp hc').1))
      · exact h c (List.mem_filter.mp hc).1
    · exact h c hc

theorem noDigit_baseSepNormalize {l : List Char} (h : ∀ c ∈ l, c.isDigit = false) :
    ∀ c ∈ baseSepNormalize l, c.isDigit = false := by
  intro c hc
  unfold baseSepNormalize at hc
  split at hc
  · split at hc
    · rcases List.mem_map.mp hc with ⟨c', hc', rfl⟩
      exact swapCommaDot_no_digit (h c' ((List.mem_filter.mp hc').1))
    · exact h c (List.mem_filter.mp hc).1
  · split at hc
    · split at hc
      · rcases List.mem_map.mp hc with ⟨c', hc', rfl⟩
        exact swapCommaDot_no_digit (h c' hc')
      · exact h c (List.mem_filter.mp hc).1
    · exact h c hc

/-- On a digit-free input the universal residue holds only `.` and `-`. -/
theorem univMoneyChars_dotdash {l : List Char} (h : ∀ c ∈ l, c.isDigit = false) :
    ∀ c ∈ univMoneyChars l, c = '.' ∨ c = '-' := by
  intro c hc
  unfold univMoneyChars at hc
  have h1 := List.mem_filter.mp hc
  have hnd : c.isDigit = false := by
    refine noDigit_univSepNormalize ?_ c h1.1
    intro c' hc'
    exact h c' (mem_removeChar (mem_removeEUR (mem_removeChar (mem_removeChar hc'))))
  have h2 := h1.2
  simp only [hnd, Bool.false_or, Bool.or_eq_true, decide_eq_true_eq] at h2
  exact h2

theorem baseAmountChars_dotdash {s : String} (h : ∀ c ∈ s.data, c.isDigit = false) :
    ∀ c ∈ baseAmountChars s, c = '.' ∨ c = '-' := by
  intro c hc
  unfold baseAmountChars at hc
  have h1 := List.mem_filter.mp hc
  have hnd : c.isDigit = false := by
    refine noDigit_baseSepNormalize ?_ c h1.1
    intro c' hc'
    exact h c' (mem_stripChars (mem_removeChar (mem_removeEUR
      (mem_removeChar (mem_removeUSD (mem_stripChars hc'))))))
  have h2 := h1.2
  simp only [hnd, Bool.false_or, Bool.or_eq_true, decide_eq_true_eq] at h2
  exact h2

theorem csvAmountChars_no_digit {s : String} (h : ∀ c ∈ s.data, c.isDigit = false) :
    ∀ c ∈ csvAmountChars s, c.isDigit = false := by
  intro c hc
  unfold csvAmountChars at hc
  have h1 := mem_removeChar (mem_removeChar (mem_removeEUR hc))
  rcases List.mem_map.mp h1 with ⟨c', hc', rfl⟩
  exact swapCommaDot_no_digit (h c' (mem_stripChars hc'))

/-- Digit-accumulation fails when the input never supplies a digit. -/
theorem decDigits_none_of_no_digit :
    ∀ (l : List Char) (dot : Bool) (c s : ℕ), (∀ ch ∈ l, ch.isDigit = false) →
      decDigits l false dot c s = none := by
  intro l
  induction l with
  | nil =>
    intro dot c s _
    rfl
  | cons ch t ih =>
    intro dot c s h
    have hch : ch.isDigit = false := h ch (List.mem_cons_self _ _)
    unfold decDigits
    rw [if_neg (by simp [hch])]
    by_cases hdot : (ch = '.' && !dot) = true
    · rw [if_pos hdot]
      exact ih _ _ _ fun x hx => h x (List.mem_cons_of_mem _ hx)
    · rw [if_neg hdot]

/-- The only non-`none` outcomes of the special-literal parser. -/
theorem decSpecial_shape (neg : Bool) (l : List Char) :
    decSpecial neg l = none ∨ decSpecial neg l = some .nan ∨
      decSpecial neg l = some (.inf neg) := by
  unfold decSpecial
  split_ifs <;> simp

/-- Dot/dash-only residues are rejected by the special-literal parser. -/
theorem decSpecial_dotdash_none (neg : Bool) {l : List Char}
    (h : ∀ c ∈ l, c = '.' ∨ c = '-') : decSpecial neg l = none := by
  have hlow : lowerChars l = l := by
    unfold lowerChars
    rw [List.map_congr_left (g := id) ?_, List.map_id]
    intro c hc
    rcases h c hc with rfl | rfl <;> rfl
  unfold decSpecial
  rw [hlow]
  rw [if_neg ?hinf, if_neg ?hnan, if_neg ?hsnan]
  case hinf =>
    rintro (hc | hc) <;>
      · have hi : 'i' ∈ l := by rw [hc]; simp
        rcases h 'i' hi with h' | h' <;> exact absurd h' (by decide)
  case hnan =>
    rintro ⟨hp, -⟩
    have hn : 'n' ∈ l :=
      (List.isPrefixOf_iff_prefix.mp hp).subset (by simp)
    rcases h 'n' hn with h' | h' <;> exact absurd h' (by decide)
  case hsnan =>
    rintro ⟨hp, -⟩
    have hn : 's' ∈ l :=
      (List.isPrefixOf_iff_prefix.mp hp).subset (by simp)
    rcases h 's' hn with h' | h' <;> exact absurd h' (by decide)

theorem mem_decBody {c : Char} {l : List Char} (h : c ∈ decBody l) : c ∈ l := by
  unfold decBody at h
  split at h
  · exact List.mem_of_mem_tail h
  · exact h

/-- A digit-free string never constructs a finite decimal: the `Decimal`
constructor either fails or produces one of the special values. -/
theorem pyDecOfChars_no_digit {l : List Char} (h : ∀ c ∈ l, c.isDigit = false) :
    pyDecOfChars l = none ∨ pyDecOfChars l = some .nan ∨
      pyDecOfChars l = some (.inf true) ∨ pyDecOfChars l = some (.inf false) := by
  unfold pyDecOfChars
  rw [decDigits_none_of_no_digit (decBody l) false 0 0 fun c hc => h c (mem_decBody hc)]
  rcases decSpecial_shape (decNeg l) (decBody l) with hs | hs | hs <;> rw [hs]
  · exact Or.inl rfl
  · exact Or.inr (Or.inl rfl)
  · cases hneg : decNeg l
    · exact Or.inr (Or.inr (Or.inr rfl))
    · exact Or.inr (Or.inr (Or.inl rfl))

/-- Dot/dash-only residues make the `Decimal` constructor fail outright. -/
theorem pyDecOfChars_dotdash_none {l : List Char} (h : ∀ c ∈ l, c = '.' ∨ c = '-') :
    pyDecOfChars l = none := by
  unfold pyDecOfChars
  rw [decDigits_none_of_no_digit (decBody l) false 0 0 ?_]
  · rw [decSpecial_dotdash_none (decNeg l) fun c hc => h c (mem_decBody hc)]
  · intro c hc
    rcases h c (mem_decBody hc) with rfl | rfl <;> rfl

/-- C3 counterexample: on the claim's own example `"n/a"` the universal
money cleaner fabricates `Decimal(0)` instead of returning null; on the
digit-free residue `"."` it raises `InvalidOperation` instead of returning;
and the CSV parser returns `Decimal('NaN')` (not null) for the digit-free
string `"nan"`. -/
theorem C3_unparseable_counterexample :
    universalCleanMoney "n/a" = .ok decZero ∧
      universalCleanMoney "." = .error () ∧
      csvParseAmount (.str "nan") = some .nan :=
  ⟨rfl, rfl, rfl⟩

/-- C3 (amended): on a digit-free amount string the three parsers behave
differently, and none meets "returns null and never raises" in full.
`UniversalParser._parse_money` returns `Decimal(0)` whenever the cleaned
residue is empty (fabricating a zero), raises exactly when a nonempty
residue fails `Decimal` construction, and on digit-free input never
produces a nonzero finite value (it yields 0 or raises).
`CSVParser.parse_amount` returns `None` whenever `Decimal` construction
fails (never raising), but its cleaning keeps letters, so the digit-free
special literals `NaN`/`Infinity` slip through as non-null non-finite
values.  `BankParser.parse_amount` returns null whenever nothing parseable
remains after cleaning, but when a nonempty digit-free residue (such as
`"."`) makes `Decimal` fail, its `except` handler calls the undefined name
`logger` and the call raises `NameError` instead of returning null. -/
theorem C3_unparseable_amounts :
    (∀ s : String, univMoneyChars s.data = [] → universalCleanMoney s = .ok decZero) ∧
    (∀ s : String, univMoneyChars s.data ≠ [] →
        pyDecOfChars (univMoneyChars s.data) = none → universalCleanMoney s = .error ()) ∧
    (∀ s : String, (∀ c ∈ s.data, c.isDigit = false) →
        universalCleanMoney s = .ok decZero ∨ universalCleanMoney s = .error ()) ∧
    (∀ s : String, pyDecOfChars (csvAmountChars s) = none → csvParseAmount (.str s) = none) ∧
    (∀ s : String, (∀ c ∈ s.data, c.isDigit = false) → ∀ d : PyDec,
        csvParseAmount (.str s) = some d →
          d = .nan ∨ d = .inf true ∨ d = .inf false) ∧
    (∀ s : String, baseAmountChars s = [] → baseParseAmount (.str s) = .ok none) ∧
    (∀ s : String, (∀ c ∈ s.data, c.isDigit = false) → baseAmountChars s ≠ [] →
        baseParseAmount (.str s) = .error ()) := by
  have hok : ∀ s : String, univMoneyChars s.data = [] → universalCleanMoney s = .ok decZero := by
    intro s hres
    by_cases hs : s = ""
    · rw [hs]; rfl
    · simp only [universalCleanMoney, univClean]
      rw [if_neg hs, if_pos hres]
  have herr : ∀ s : String, univMoneyChars s.data ≠ [] →
      pyDecOfChars (univMoneyChars s.data) = none → universalCleanMoney s = .error () := by
    intro s hne hparse
    have hs : s ≠ "" := by
      intro h
      exact hne (by rw [h]; rfl)
    simp only [universalCleanMoney, univClean]
    rw [if_neg hs, if_neg hne, hparse]
  refine ⟨hok, herr, ?_, ?_, ?_, ?_, ?_⟩
  · intro s h
    by_cases hres : univMoneyChars s.data = []
    · exact Or.inl (hok s hres)
    · exact Or.inr (herr s hres (pyDecOfChars_dotdash_none (univMoneyChars_dotdash h)))
  · intro s hparse
    simp only [csvParseAmount]
    exact hparse
  · intro s h d hd
    simp only [csvParseAmount] at hd
    rcases pyDecOfChars_no_digit (csvAmountChars_no_digit h) with hc | hc | hc | hc <;>
      rw [hc] at hd
    · cases hd
    · exact Or.inl (Option.some.inj hd).symm
    · exact Or.inr (Or.inl (Option.some.inj hd).symm)
    · exact Or.inr (Or.inr (Option.some.inj hd).symm)
  · intro s hres
    by_cases hs : s = ""
    · rw [hs]; rfl
    · simp only [baseParseAmount]
      rw [if_neg hs, if_pos hres]
  · intro s h hres
    have hs : s ≠ "" := by
      intro heq
      exact hres (by rw [heq]; rfl)
    simp only [baseParseAmount]
    rw [if_neg hs, if_neg hres,
      pyDecOfChars_dotdash_none (baseAmountChars_dotdash h)]

/-- Witness for C3 (amended): at `"n/a"` the residue is empty, the
universal cleaner returns `Decimal(0)` and the base parser returns null;
at `"."` the residue is nonempty and digit-free, and the base parser's
broken `except` handler raises instead of returning null. -/
theorem C3_unparseable_amounts_witness :
    universalCleanMoney "n/a" = .ok decZero ∧
      baseParseAmount (.str "n/a") = .ok none ∧
      baseParseAmount (.str ".") = .error () :=
  ⟨C3_unparseable_amounts.1 "n/a" rfl,
   C3_unparseable_amounts.2.2.2.2.2.1 "n/a" (by decide),
   C3_unparseable_amounts.2.2.2.2.2.2 "." (by decide) (by decide)⟩

/-! ## C7 — row-level failure isolation and warnings -/

/-- The warning an indexed row contributes, if any: exactly one per row
whose date or amount fails to parse, naming the row. -/
def csvRowWarn (p : ℕ × CsvRow) : Option String :=
  match csvRowConv p.2 with
  | .ok _ => none
  | .error .badDate => some (csvDateWarn p.1)
  | .error .badAmount => some (csvAmountWarn p.1)

theorem csvDfGo_spec : ∀ (rows : List CsvRow) (i : ℕ),
    csvDfGo i rows =
      (rows.filterMap fun r => (csvRowConv r).toOption,
       (rows.enumFrom i).filterMap csvRowWarn) := by
  intro rows
  induction rows with
  | nil => intro i; rfl
  | cons r rest ih =>
    intro i
    rw [List.enumFrom_cons]
    simp only [csvDfGo, ih (i + 1), List.filterMap_cons]
    cases hconv : csvRowConv r with
    | ok t => simp [csvRowWarn, hconv, Except.toOption]
    | error e => cases e <;> simp [csvRowWarn, hconv, Except.toOption]

theorem csvDfGo_length : ∀ (rows : List CsvRow) (i : ℕ),
    (csvDfGo i rows).1.length + (csvDfGo i rows).2.length = rows.length := by
  intro rows
  induction rows with
  | nil => intro i; rfl
  | cons r rest ih =>
    intro i
    simp only [csvDfGo]
    cases hconv : csvRowConv r with
    | ok t =>
      have := ih (i + 1)
      simp only [List.length_cons]
      omega
    | error e =>
      have := ih (i + 1)
      cases e <;> (simp only [List.length_cons]; omega)

/-- The universal row loop never records warnings: it returns only the
surviving transactions. -/
theorem univDf_eq_filterMap (m : UMapping) :
    ∀ rows : List URow, univDfToTransactions m rows = rows.filterMap (univRowConv m) := by
  intro rows
  induction rows with
  | nil => rfl
  | cons r rest ih =>
    simp only [univDfToTransactions, List.filterMap_cons]
    cases hconv : univRowConv m r <;> simp [hconv, ih]

/-- A universal-parser row with a valid date and the digit-free amount
`"abc"`, read through a mapping that resolved a single amount column. -/
def abcURow : URow := { date := .str "01/03/2024", amount := .str "abc" }

def uMapAmount : UMapping := ⟨true, false, false⟩

/-- C7 counterexample: on the claim's own scenario — a row with a valid
date and amount `"abc"` — the universal parser does not skip the row with
a warning: it emits a transaction with amount `Decimal(0)` (and its row
loop produces no warnings at all, see `univDf_eq_filterMap`). -/
theorem C7_row_isolation_counterexample :
    univDfToTransactions uMapAmount [abcURow] =
      [{ datum := ⟨2024, 3, 1⟩, bedrag := decZero }] := rfl

/-- The claim's scenario rows for the CSV pipeline: the `"abc"` row and a
well-formed sibling row. -/
def abcCsvRow : CsvRow := { datum := .str "01/03/2024", bedrag := .str "abc" }

def validCsvRow : CsvRow :=
  { datum := .str "02/03/2024", bedrag := .str "-45,50",
    naam := .str "Delhaize Gent", omsch := .str "Aankoop boodschappen" }

/-- C7 (amended): the per-row isolation holds in the CSV pipeline
(`CSVParser.df_to_transactions`): each row independently either converts
or contributes exactly one indexed warning ("Invalid date format" /
"Invalid amount format"), so sibling rows always survive and transactions
plus warnings account for every row.  The universal parser
(`UniversalParser._df_to_transactions`) is a per-row `filterMap` with *no*
warnings: a row with an unparseable date is dropped silently, and a
digit-free amount such as `"abc"` is not dropped at all but parsed as 0.
The concrete scenario shows the CSV pipeline keeping the sibling row and
warning once about row 1. -/
theorem C7_row_failure_isolation :
    (∀ rows : List CsvRow,
        (csvDfToTransactions rows).1 = rows.filterMap fun r => (csvRowConv r).toOption) ∧
    (∀ rows : List CsvRow, (csvDfToTransactions rows).2 = rows.enum.filterMap csvRowWarn) ∧
    (∀ rows : List CsvRow,
        (csvDfToTransactions rows).1.length + (csvDfToTransactions rows).2.length
          = rows.length) ∧
    (∀ (m : UMapping) (rows : List URow),
        univDfToTransactions m rows = rows.filterMap (univRowConv m)) ∧
    csvDfToTransactions [abcCsvRow, validCsvRow] =
      ([{ datum := ⟨2024, 3, 2⟩, bedrag := .finite true 4550 2,
          naam := some "Delhaize Gent", omsch := some "Aankoop boodschappen" }],
       [csvAmountWarn 0]) := by
  refine ⟨?_, ?_, fun rows => csvDfGo_length rows 0, univDf_eq_filterMap, rfl⟩
  · intro rows
    rw [show csvDfToTransactions rows = csvDfGo 0 rows from rfl, csvDfGo_spec rows 0]
  · intro rows
    rw [show csvDfToTransactions rows = csvDfGo 0 rows from rfl, csvDfGo_spec rows 0]
    rfl

/-! ## C8 — exact decimals in the fingerprint, a binary float in storage -/

/-- Everything `pyFloat` returns is a dyadic rational: some integer divided
by a power of two.  (This is the whole point: a decimal such as 0.1 or
−45.55 is not dyadic, so `float(...)` cannot store it exactly.) -/
theorem pyFloat_dyadic (q : ℚ) : ∃ (n : ℤ) (k : ℕ), pyFloat q * 2 ^ k = (n : ℚ) := by
  unfold pyFloat
  by_cases hq : q = 0
  · exact ⟨0, 0, by simp [hq]⟩
  · rw [if_neg hq]
    set K : ℤ := (52 : ℤ) - Int.log 2 |q| with hK
    set m : ℤ := round (q * (2 : ℚ) ^ K) with hm
    rcases le_or_lt 0 K with hKpos | hKneg
    · refine ⟨m, K.toNat, ?_⟩
      have h2 : (2 : ℚ) ^ K = (2 : ℚ) ^ K.toNat := by
        rw [← zpow_natCast, Int.toNat_of_nonneg hKpos]
      rw [h2]
      have hne : ((2 : ℚ) ^ K.toNat) ≠ 0 := by positivity
      field_simp
    · refine ⟨m * 2 ^ (-K).toNat, 0, ?_⟩
      have h2 : (2 : ℚ) ^ K = ((2 : ℚ) ^ (-K).toNat)⁻¹ := by
        have hco : (((-K).toNat : ℤ)) = -K := Int.toNat_of_nonneg (by omega)
        rw [← zpow_natCast (2 : ℚ) (-K).toNat, hco, zpow_neg, inv_inv]
      rw [h2]
      push_cast
      field_simp

/-- C8 counterexample: a transaction with the exact decimal amount 0.1.
The record `to_dict` hands to the store does not carry the exact decimal
value: the stored amount (the value of `float(Decimal('0.1'))`) differs
from 1/10, because every float is dyadic while 1/10 is not. -/
theorem C8_stored_amount_not_exact :
    (to_dict id { datum := ⟨2024, 1, 2⟩, bedrag := .finite false 1 1 }).bedrag ≠
      (PyDec.finite false 1 1).toRat := by
  intro h
  have hval : (PyDec.finite false 1 1).toRat = 1 / 10 := by
    norm_num [PyDec.toRat]
  rw [show (to_dict id { datum := ⟨2024, 1, 2⟩, bedrag := .finite false 1 1 }).bedrag =
      pyFloat ((PyDec.finite false 1 1).toRat) from rfl, hval] at h
  obtain ⟨n, k, hnk⟩ := pyFloat_dyadic (1 / 10)
  rw [h] at hnk
  have hint : (2 : ℤ) ^ k = 10 * n := by
    have : (2 : ℚ) ^ k = 10 * n := by
      field_simp at hnk
      linarith
    exact_mod_cast this
  have h5 : (5 : ℕ) ∣ 2 ^ k := by
    have : (5 : ℤ) ∣ 2 ^ k := ⟨2 * n, by linarith⟩
    exact_mod_cast this
  have := Nat.Prime.dvd_of_dvd_pow (p := 5) (m := 2) (by norm_num) h5
  norm_num at this

/-- C8 (amended): the fingerprint input is the exact decimal rendering of
the amount (never a float), and every parser hands the amount through as an
exact `Decimal`; but `to_dict` stores `float(self.bedrag)`, a dyadic
approximation, so the record handed to the persistence layer does not store
the amount in exact decimal form — e.g. for the non-dyadic amount −45.55. -/
theorem C8_fingerprint_exact_storage_float :
    (∀ (md5 : String → String) (t : Txn),
        generate_hash md5 t =
          md5 (t.datum.iso ++ "|" ++ t.bedrag.toStr ++ "|" ++
            t.naam.getD "" ++ "|" ++ t.omsch.getD "")) ∧
    (∀ (md5 : String → String) (t : Txn), (to_dict md5 t).bedrag = pyFloat t.bedrag.toRat) ∧
    (to_dict id { datum := ⟨2024, 1, 2⟩, bedrag := .finite true 4555 2 }).bedrag ≠
      (PyDec.finite true 4555 2).toRat := by
  refine ⟨fun _ _ => rfl, fun _ _ => rfl, ?_⟩
  intro h
  have hval : (PyDec.finite true 4555 2).toRat = -911 / 20 := by
    norm_num [PyDec.toRat]
  rw [show (to_dict id { datum := ⟨2024, 1, 2⟩, bedrag := .finite true 4555 2 }).bedrag =
      pyFloat ((PyDec.finite true 4555 2).toRat) from rfl, hval] at h
  obtain ⟨n, k, hnk⟩ := pyFloat_dyadic (-911 / 20)
  rw [h] at hnk
  have hint : (911 : ℤ) * 2 ^ k = -(20 * n) := by
    have : (911 : ℚ) * 2 ^ k = -(20 * n) := by
      field_simp at hnk
      linarith
    exact_mod_cast this
  have h5 : (5 : ℕ) ∣ 911 * 2 ^ k := by
    have : (5 : ℤ) ∣ 911 * 2 ^ k := ⟨-(4 * n), by linarith⟩
    exact_mod_cast this
  rcases (Nat.Prime.dvd_mul (by norm_num)).mp h5 with h' | h'
  · norm_num at h'
  · have := Nat.Prime.dvd_of_dvd_pow (p := 5) (m := 2) (by norm_num) h'
    norm_num at this

/-! ## C9 — the shape of the clusterer's evidence records -/

/-- The groups the suggester builds for a transaction list (after name
enrichment, in first-appearance order). -/
def suggGroups (txns : List Txn) : List (String × List (ℕ × Txn)) :=
  groupByCounterparty (txns.map enrichTxn).enum

/-- The reason string the keyword match recorded for a group. -/
def groupReason (g : String × List (ℕ × Txn)) : String :=
  ((matchToCategory g.1 (g.2.map (·.2))).map Prod.snd).getD ""

/-- The groups whose keyword/income match resolved to a given category. -/
def matchedGroupsFor (cat : String) (groups : List (String × List (ℕ × Txn))) :
    List (String × List (ℕ × Txn)) :=
  groups.filter fun g => ((matchToCategory g.1 (g.2.map (·.2))).map Prod.fst) = some cat

/-- Folding one matched group into evidence, with its recorded reason. -/
def addStep (e : Evidence) (g : String × List (ℕ × Txn)) : Evidence :=
  addGroupToEv g.1 (g.2.map (·.2)) (groupReason g) e

/-- The evidence a category accumulates: its matched groups folded, in
group order, onto the fresh record. -/
def evSpec (cat : String) (groups : List (String × List (ℕ × Txn))) : Evidence :=
  (matchedGroupsFor cat groups).foldl addStep (initEv cat)

theorem setAdd_mem (l : List String) (x y : String) :
    y ∈ setAdd l x ↔ y ∈ l ∨ y = x := by
  unfold setAdd
  split
  · rename_i hx
    constructor
    · exact Or.inl
    · rintro (h | rfl)
      · exact h
      · exact hx
  · simp [List.mem_append]

theorem setAdd_nodup {l : List String} (h : l.Nodup) (x : String) : (setAdd l x).Nodup := by
  unfold setAdd
  split
  · exact h
  · rename_i hx
    simpa [List.nodup_append, hx] using h

theorem foldl_setAdd_nodup : ∀ (xs : List String) {l : List String}, l.Nodup →
    (xs.foldl setAdd l).Nodup := by
  intro xs
  induction xs with
  | nil => intro l h; exact h
  | cons x xs ih => intro l h; exact ih (setAdd_nodup h x)

theorem addStep_count (e : Evidence) (g : String × List (ℕ × Txn)) :
    (addStep e g).transaction_count = e.transaction_count + g.2.length := by
  simp [addStep, addGroupToEv]

theorem foldl_addStep_count (gs : List (String × List (ℕ × Txn))) :
    ∀ e : Evidence, (gs.foldl addStep e).transaction_count =
      e.transaction_count + (gs.map fun g => g.2.length).sum := by
  induction gs with
  | nil => intro e; simp
  | cons g gs ih =>
    intro e
    rw [List.foldl_cons, ih, addStep_count, List.map_cons, List.sum_cons]
    omega

theorem foldl_addStep_sum (gs : List (String × List (ℕ × Txn))) :
    ∀ e : Evidence, (gs.foldl addStep e).avg_amount =
      e.avg_amount + (gs.map fun g => ((g.2.map fun p => p.2.bedrag.toRat).sum)).sum := by
  induction gs with
  | nil => intro e; simp
  | cons g gs ih =>
    intro e
    rw [List.foldl_cons, ih, List.map_cons, List.sum_cons]
    have : (addStep e g).avg_amount
        = e.avg_amount + ((g.2.map fun p => p.2.bedrag.toRat).sum) := by
      simp [addStep, addGroupToEv, List.map_map]
      rfl
    rw [this]
    ring

theorem foldl_addStep_reasons_mem (gs : List (String × List (ℕ × Txn))) :
    ∀ (e : Evidence) (r : String), r ∈ (gs.foldl addStep e).reasons ↔
      r ∈ e.reasons ∨ (r ≠ "" ∧ ∃ g ∈ gs, groupReason g = r) := by
  induction gs with
  | nil => intro e r; simp
  | cons g gs ih =>
    intro e r
    rw [List.foldl_cons, ih]
    have hstep : r ∈ (addStep e g).reasons ↔
        r ∈ e.reasons ∨ (r ≠ "" ∧ groupReason g = r) := by
      simp only [addStep, addGroupToEv]
      split
      · rename_i hne
        rw [setAdd_mem]
        constructor
        · rintro (h | rfl)
          · exact Or.inl h
          · exact Or.inr ⟨hne, rfl⟩
        · rintro (h | ⟨-, rfl⟩)
          · exact Or.inl h
          · exact Or.inr rfl
      · rename_i hne
        rw [not_ne_iff] at hne
        constructor
        · exact Or.inl
        · rintro (h | ⟨hr, rfl⟩)
          · exact h
          · exact absurd hne hr
    rw [hstep]
    constructor
    · rintro ((h | ⟨hr, hg⟩) | ⟨hr, g', hg', hr'⟩)
      · exact Or.inl h
      · exact Or.inr ⟨hr, g, List.mem_cons_self _ _, hg⟩
      · exact Or.inr ⟨hr, g', List.mem_cons_of_mem _ hg', hr'⟩
    · rintro (h | ⟨hr, g', hg', hr'⟩)
      · exact Or.inl (Or.inl h)
      · rcases List.mem_cons.mp hg' with rfl | hmem
        · exact Or.inl (Or.inr ⟨hr, hr'⟩)
        · exact Or.inr ⟨hr, g', hmem, hr'⟩

theorem foldl_addStep_cps_mem (gs : List (String × List (ℕ × Txn))) :
    ∀ (e : Evidence) (cp : String), cp ∈ (gs.foldl addStep e).counterparties ↔
      cp ∈ e.counterparties ∨ ∃ g ∈ gs, pyTitle g.1 = cp := by
  induction gs with
  | nil => intro e cp; simp
  | cons g gs ih =>
    intro e cp
    rw [List.foldl_cons, ih]
    have hstep : cp ∈ (addStep e g).counterparties ↔
        cp ∈ e.counterparties ∨ pyTitle g.1 = cp := by
      simp only [addStep, addGroupToEv]
      rw [setAdd_mem]
      constructor
      · rintro (h | rfl)
        · exact Or.inl h
        · exact Or.inr rfl
      · rintro (h | rfl)
        · exact Or.inl h
        · exact Or.inr rfl
    rw [hstep]
    constructor
    · rintro ((h | hg) | ⟨g', hg', hcp⟩)
      · exact Or.inl h
      · exact Or.inr ⟨g, List.mem_cons_self _ _, hg⟩
      · exact Or.inr ⟨g', List.mem_cons_of_mem _ hg', hcp⟩
    · rintro (h | ⟨g', hg', hcp⟩)
      · exact Or.inl (Or.inl h)
      · rcases List.mem_cons.mp hg' with rfl | hmem
        · exact Or.inl (Or.inr hcp)
        · exact Or.inr ⟨g', hmem, hcp⟩

theorem addGroupToEv_nodup (cp : String) (gtxns : List Txn) (reason : String) {e : Evidence}
    (h1 : e.counterparties.Nodup) (h2 : e.reasons.Nodup) :
    (addGroupToEv cp gtxns reason e).counterparties.Nodup ∧
      (addGroupToEv cp gtxns reason e).reasons.Nodup := by
  simp only [addGroupToEv]
  refine ⟨setAdd_nodup h1 _, ?_⟩
  split
  · exact setAdd_nodup h2 _
  · exact h2

theorem initEv_nodup (cat : String) :
    (initEv cat).counterparties.Nodup ∧ (initEv cat).reasons.Nodup := by
  simp [initEv]

theorem updateEntry_find_self (cat : String) (f : Evidence → Evidence) :
    ∀ sugs : List (String × Evidence),
      (updateEntry cat f sugs).find? (·.1 = cat) =
        some (cat, f (((sugs.find? (·.1 = cat)).map (·.2)).getD (initEv cat))) := by
  intro sugs
  induction sugs with
  | nil => simp [updateEntry]
  | cons q rest ih =>
    by_cases hq : q.1 = cat
    · simp only [updateEntry]
      rw [if_pos hq]
      rw [List.find?_cons_of_pos _ (by simp [hq]), List.find?_cons_of_pos _ (by simp [hq])]
      simp [hq]
    · simp only [updateEntry]
      rw [if_neg hq]
      rw [List.find?_cons_of_neg _ (by simp [hq]), List.find?_cons_of_neg _ (by simp [hq])]
      exact ih

theorem updateEntry_find_other (cat k : String) (f : Evidence → Evidence) (hne : k ≠ cat) :
    ∀ sugs : List (String × Evidence),
      (updateEntry cat f sugs).find? (·.1 = k) = sugs.find? (·.1 = k) := by
  intro sugs
  induction sugs with
  | nil => simp [updateEntry, hne.symm]
  | cons q rest ih =>
    by_cases hq : q.1 = cat
    · simp only [updateEntry]
      rw [if_pos hq]
      rw [List.find?_cons_of_neg _ (by simp [hq, hne.symm]),
        List.find?_cons_of_neg _ (by simp [hq, hne.symm])]
    · simp only [updateEntry]
      rw [if_neg hq]
      by_cases hk : q.1 = k
      · rw [List.find?_cons_of_pos _ (by simp [hk]), List.find?_cons_of_pos _ (by simp [hk])]
      · rw [List.find?_cons_of_neg _ (by simp [hk]), List.find?_cons_of_neg _ (by simp [hk])]
        exact ih

/-- Fold characterization of the suggestion entry a category ends up with:
its matched groups, folded in order onto whatever the accumulator already
held (or a fresh record). -/
theorem agg_find (cat : String) :
    ∀ (gs : List (String × List (ℕ × Txn)))
      (acc : List (String × Evidence) × List (ℕ × String)),
      (gs.foldl aggStep acc).1.find? (·.1 = cat) =
        if (matchedGroupsFor cat gs).isEmpty then acc.1.find? (·.1 = cat)
        else
          some (cat, (matchedGroupsFor cat gs).foldl addStep
            (((acc.1.find? (·.1 = cat)).map (·.2)).getD (initEv cat))) := by
  intro gs
  induction gs with
  | nil => intro acc; simp [matchedGroupsFor]
  | cons g gs ih =>
    intro acc
    rw [List.foldl_cons]
    cases hmg : matchToCategory g.1 (g.2.map (·.2)) with
    | none =>
      have hfilter : matchedGroupsFor cat (g :: gs) = matchedGroupsFor cat gs := by
        unfold matchedGroupsFor
        rw [List.filter_cons_of_neg (by simp [hmg])]
      have hstep : (aggStep acc g).1 = acc.1 := by
        simp [aggStep, hmg]
      rw [hfilter, ih, hstep]
    | some cr =>
      by_cases hcat : cr.1 = cat
      · have hfilter : matchedGroupsFor cat (g :: gs) = g :: matchedGroupsFor cat gs := by
          unfold matchedGroupsFor
          rw [List.filter_cons_of_pos (by simp [hmg, hcat])]
        have hreason : groupReason g = cr.2 := by
          simp [groupReason, hmg]
        have hstep : (aggStep acc g).1 = updateEntry cat (addStep · g) acc.1 := by
          simp only [aggStep, hmg]
          rw [show cr = (cat, cr.2) from by rw [← hcat]]
          simp only [addStep, hreason]
        rw [hfilter, ih, hstep, updateEntry_find_self]
        by_cases hemp : (matchedGroupsFor cat gs).isEmpty
        · rw [if_pos hemp, if_neg (by simp)]
          rw [List.isEmpty_iff] at hemp
          rw [hemp]
          simp
        · rw [if_neg hemp, if_neg (by simp)]
          simp
      · have hfilter : matchedGroupsFor cat (g :: gs) = matchedGroupsFor cat gs := by
          unfold matchedGroupsFor
          rw [List.filter_cons_of_neg (by simp [hmg, hcat])]
        have hstep : (aggStep acc g).1.find? (·.1 = cat) = acc.1.find? (·.1 = cat) := by
          simp only [aggStep, hmg]
          exact updateEntry_find_other cr.1 cat _ (fun h => hcat h.symm) acc.1
        rw [hfilter, ih, hstep]

theorem updateEntry_forall {P : Evidence → Prop} (cat : String) (f : Evidence → Evidence)
    (hf : ∀ e, P e → P (f e)) (hinit : P (initEv cat)) :
    ∀ sugs : List (String × Evidence), (∀ q ∈ sugs, P q.2) →
      ∀ q ∈ updateEntry cat f sugs, P q.2 := by
  intro sugs
  induction sugs with
  | nil =>
    intro _ q hq
    simp only [updateEntry] at hq
    rcases List.mem_singleton.mp hq with rfl
    exact hf _ hinit
  | cons p rest ih =>
    intro h q hq
    simp only [updateEntry] at hq
    split at hq
    · rcases List.mem_cons.mp hq with rfl | hmem
      · exact hf _ (h p (List.mem_cons_self _ _))
      · exact h q (List.mem_cons_of_mem _ hmem)
    · rcases List.mem_cons.mp hq with rfl | hmem
      · exact h p (List.mem_cons_self _ _)
      · exact ih (fun r hr => h r (List.mem_cons_of_mem _ hr)) q hmem

theorem agg_entries_nodup :
    ∀ (gs : List (String × List (ℕ × Txn)))
      (acc : List (String × Evidence) × List (ℕ × String)),
      (∀ q ∈ acc.1, q.2.counterparties.Nodup ∧ q.2.reasons.Nodup) →
      ∀ q ∈ (gs.foldl aggStep acc).1, q.2.counterparties.Nodup ∧ q.2.reasons.Nodup := by
  intro gs
  induction gs with
  | nil => intro acc h; exact h
  | cons g gs ih =>
    intro acc h
    rw [List.foldl_cons]
    refine ih (aggStep acc g) ?_
    cases hmg : matchToCategory g.1 (g.2.map (·.2)) with
    | none =>
      simp only [aggStep, hmg]
      exact h
    | some cr =>
      simp only [aggStep, hmg]
      exact updateEntry_forall
        (P := fun e => e.counterparties.Nodup ∧ e.reasons.Nodup) cr.1 _
        (fun e he => addGroupToEv_nodup g.1 (g.2.map (·.2)) cr.2 he.1 he.2)
        (initEv_nodup cr.1) acc.1 h

theorem finalizeEv_fields (e : Evidence) :
    (finalizeEv e).counterparties = e.counterparties ∧
      (finalizeEv e).reasons = e.reasons ∧
      (finalizeEv e).transaction_count = e.transaction_count := by
  unfold finalizeEv
  split <;> simp

theorem find?_finalize_map (cat : String) :
    ∀ l : List (String × Evidence),
      ((l.map fun p => (p.1, finalizeEv p.2)).find? (·.1 = cat)) =
        (l.find? (·.1 = cat)).map fun p => (p.1, finalizeEv p.2) := by
  intro l
  induction l with
  | nil => rfl
  | cons p rest ih =>
    by_cases hp : p.1 = cat
    · rw [List.map_cons, List.find?_cons_of_pos _ (by simp [hp]),
        List.find?_cons_of_pos _ (by simp [hp])]
      rfl
    · rw [List.map_cons, List.find?_cons_of_neg _ (by simp [hp]),
        List.find?_cons_of_neg _ (by simp [hp])]
      exact ih

theorem find?_overigFallback (sugs : List (String × Evidence)) (cat : String)
    (p : String × Evidence) (h : sugs.find? (·.1 = cat) = some p) :
    (overigFallback sugs).find? (·.1 = cat) = some p := by
  unfold overigFallback
  split
  · rw [List.find?_append, h]
    rfl
  · exact h

theorem find?_incomeFallback (indexed : List (ℕ × Txn)) (sugs : List (String × Evidence))
    (m : List (ℕ × String)) (cat : String) (p : String × Evidence)
    (h : sugs.find? (·.1 = cat) = some p) :
    (incomeFallback indexed sugs m).1.find? (·.1 = cat) = some p := by
  unfold incomeFallback
  dsimp only
  split
  · rw [List.find?_append, h]
    rfl
  · exact h

/-- The per-transaction demo used for the counterexample: four supermarket
counterparties, each matching a different food keyword, each with a
negative amount. -/
def suggDemoTxn (n : String) (a : ℕ) : Txn :=
  { datum := ⟨2024, 1, 1⟩, bedrag := .finite true a 0, naam := some n }

def suggDemoTxns : List Txn :=
  [suggDemoTxn "delhaize" 1, suggDemoTxn "colruyt" 2,
   suggDemoTxn "carrefour" 3, suggDemoTxn "aldi" 4]

/-- C9 counterexample: the claim says an evidence record carries *at most
the first 3* distinct match reasons.  On four groups matching four
different keywords of the same category, the code's evidence record for
`"Eten & Drinken"` carries all four distinct reasons — the reasons set is
never truncated. -/
theorem C9_reasons_not_capped :
    (((analyze_and_suggest suggDemoTxns).1.find? (·.1 = "Eten & Drinken")).map
        fun p => p.2.reasons) =
      some ["Match op 'delhaize'", "Match op 'colruyt'",
        "Match op 'carrefour'", "Match op 'aldi'"] ∧
      (((analyze_and_suggest suggDemoTxns).1.find? (·.1 = "Eten & Drinken")).map
        fun p => p.2.reasons.length) = some 4 := by
  constructor <;> rfl

/-- C9 (amended): for every proposed category, the evidence record carries
the *distinct* title-cased counterparty names of its matched groups, their
total transaction count, the running average amount over exactly those
transactions (sum divided by count, applied by the finalize step), and
*all* distinct non-empty match reasons of those groups — not only the
first 3.  Distinctness holds for every entry of the returned proposal map,
the synthetic income and fallback entries included. -/
theorem C9_evidence_shape :
    (∀ (txns : List Txn) (p : String × Evidence), p ∈ (analyze_and_suggest txns).1 →
        p.2.counterparties.Nodup ∧ p.2.reasons.Nodup) ∧
    (∀ (txns : List Txn) (cat : String),
        matchedGroupsFor cat (suggGroups txns) ≠ [] →
        (analyze_and_suggest txns).1.find? (·.1 = cat) =
          some (cat, finalizeEv (evSpec cat (suggGroups txns)))) ∧
    (∀ (cat : String) (gs : List (String × List (ℕ × Txn))),
        (evSpec cat gs).transaction_count =
            ((matchedGroupsFor cat gs).map fun g => g.2.length).sum ∧
          (evSpec cat gs).avg_amount =
            ((matchedGroupsFor cat gs).map fun g =>
              (g.2.map fun p => p.2.bedrag.toRat).sum).sum ∧
          (∀ r : String, r ∈ (evSpec cat gs).reasons ↔
            r ≠ "" ∧ ∃ g ∈ matchedGroupsFor cat gs, groupReason g = r) ∧
          (∀ cp : String, cp ∈ (evSpec cat gs).counterparties ↔
            ∃ g ∈ matchedGroupsFor cat gs, pyTitle g.1 = cp)) ∧
    (∀ e : Evidence, 0 < e.transaction_count →
        (finalizeEv e).avg_amount = e.avg_amount / e.transaction_count ∧
          (finalizeEv e).transaction_count = e.transaction_count ∧
          (finalizeEv e).reasons = e.reasons ∧
          (finalizeEv e).counterparties = e.counterparties) := by
  refine ⟨?_, ?_, ?_, ?_⟩
  · intro txns p hp
    simp only [analyze_and_suggest] at hp
    unfold overigFallback at hp
    have hfb : ∀ q : String × Evidence,
        q ∈ (incomeFallback (txns.map enrichTxn).enum
          ((aggregateGroups (groupByCounterparty (txns.map enrichTxn).enum)).1.map
            fun p => (p.1, finalizeEv p.2))
          (aggregateGroups (groupByCounterparty (txns.map enrichTxn).enum)).2).1 →
        q.2.counterparties.Nodup ∧ q.2.reasons.Nodup := by
      intro q hq
      have hbase : ∀ r : String × Evidence,
          r ∈ ((aggregateGroups (groupByCounterparty (txns.map enrichTxn).enum)).1.map
            fun p => (p.1, finalizeEv p.2)) →
          r.2.counterparties.Nodup ∧ r.2.reasons.Nodup := by
        intro r hr
        rcases List.mem_map.mp hr with ⟨r', hr', rfl⟩
        have h := agg_entries_nodup _ ([], []) (by intro q hq; cases hq) r' hr'
        rw [(finalizeEv_fields r'.2).1, (finalizeEv_fields r'.2).2.1]
        exact h
      unfold incomeFallback at hq
      dsimp only at hq
      split at hq
      · rcases List.mem_append.mp hq with hmem | hmem
        · exact hbase q hmem
        · rcases List.mem_singleton.mp hmem with rfl
          exact ⟨foldl_setAdd_nodup _ List.nodup_nil, by simp⟩
      · exact hbase q hq
    split at hp
    · rcases List.mem_append.mp hp with hmem | hmem
      · exact hfb p hmem
      · rcases List.mem_singleton.mp hmem with rfl
        exact ⟨List.nodup_nil, by simp⟩
    · exact hfb p hp
  · intro txns cat hne
    have hfind2 : (aggregateGroups (suggGroups txns)).1.find? (·.1 = cat) =
        some (cat, evSpec cat (suggGroups txns)) := by
      have hfind := agg_find cat (suggGroups txns) ([], [])
      rw [if_neg (by simpa [List.isEmpty_iff] using hne)] at hfind
      exact hfind
    have hs1 : ((aggregateGroups (groupByCounterparty (txns.map enrichTxn).enum)).1.map
        fun p => (p.1, finalizeEv p.2)).find? (·.1 = cat) =
        some (cat, finalizeEv (evSpec cat (suggGroups txns))) := by
      rw [find?_finalize_map]
      rw [show (aggregateGroups (groupByCounterparty (txns.map enrichTxn).enum)).1 =
        (aggregateGroups (suggGroups txns)).1 from rfl, hfind2]
      rfl
    simp only [analyze_and_suggest]
    exact find?_overigFallback _ cat _ (find?_incomeFallback _ _ _ cat _ hs1)
  · intro cat gs
    refine ⟨?_, ?_, ?_, ?_⟩
    · rw [evSpec, foldl_addStep_count]
      simp [initEv]
    · rw [evSpec, foldl_addStep_sum]
      simp [initEv]
    · intro r
      rw [evSpec, foldl_addStep_reasons_mem]
      simp [initEv]
    · intro cp
      rw [evSpec, foldl_addStep_cps_mem]
      simp [initEv]
  · intro e he
    unfold finalizeEv
    rw [if_pos he]
    exact ⟨rfl, rfl, rfl, rfl⟩

/-- Witness for C9 (amended): on the four-group demo the `"Eten & Drinken"`
proposal is exactly the finalized fold of its matched groups. -/
theorem C9_evidence_shape_witness :
    (analyze_and_suggest suggDemoTxns).1.find? (·.1 = "Eten & Drinken") =
      some ("Eten & Drinken", finalizeEv (evSpec "Eten & Drinken" (suggGroups suggDemoTxns))) :=
  C9_evidence_shape.2.1 suggDemoTxns "Eten & Drinken" (by decide)

end FinTrackable
